import Mathlib

/-!
Fleet management: a shallow embedding of `fleet-manangement.c`.

The C program keeps a marina's boats in a fixed array of 120 pointers together
with a count, parses and prints one boat per CSV line, and applies payments and
monthly charges in place.

Modelling conventions.

* A C string is the list of its characters; a NUL character inside a list acts as
  the terminator, exactly as it would in the underlying buffer. Each character
  stands for one `char`.
* `int` values are integers; the program does no integer arithmetic that could
  overflow, and the library conversion `atoi` wraps to 32 bits as `(int) strtol` does.
* `double` values are rationals. Where a statement depends on rounding (the amount a
  monthly charge produces), sums, products and constants are rounded to IEEE 754
  binary64 by `fl`; elsewhere (comparisons, order, sign) the arithmetic is exact.
  Infinities, NaN and the sign of zero are not modelled.
* The array `Boat *boats[MAX_BOATS]` is a map from index to the boat the pointer
  at this index refers to. Only the first `count` slots are live; the value at a
  dead slot stands for a pointer that is never dereferenced. `count` is a natural
  number, as `boat_count` never becomes negative.
* A loop that runs over an index range is a structural recursion on the number of
  iterations that remain, so every loop is total.
* The library functions `strcasecmp`, `strtok`, `atoi`, `atof`, `strncpy`, `fgets` and
  the `printf` conversions `%s`, `%d`, `%c`, `%.2f` are given by definitions that follow
  the C standard for the C locale. `qsort` is computed by an insertion sort, which is
  proved to meet the contract of the standard (a sorted permutation; the standard
  leaves the order of equal elements open).

The definitions come first, the theorems after them.
-/

namespace Fleet

/-! ## Constants and the record model -/

/-- Capacity of the registry, `#define MAX_BOATS 120`. -/
def MAX_BOATS : Nat := 120

/-- Size of the name buffer, `#define MAX_NAME_LENGTH 128`. -/
def MAX_NAME_LENGTH : Nat := 128

/-- Monthly rate per foot for a slip, `#define SLIP_RATE 12.50`. -/
def SLIP_RATE : ℚ := 12.50

/-- Monthly rate per foot on land, `#define LAND_RATE 14.00`. -/
def LAND_RATE : ℚ := 14.00

/-- Monthly rate per foot on a trailer, `#define TRAILOR_RATE 25.00`. -/
def TRAILOR_RATE : ℚ := 25.00

/-- Monthly rate per foot in storage, `#define STORAGE_RATE 11.20`. -/
def STORAGE_RATE : ℚ := 11.20

/-- The enum `LocationType`. -/
inductive LocationType where
  | slip
  | land
  | trailor
  | storage
  deriving DecidableEq, Repr

/-- The union `LocationInfo`: the value records which member was written last. -/
inductive LocationInfo where
  | slip_number (n : Int)
  | bay_letter (c : Char)
  | trailor_tag (s : List Char)
  | storage_number (n : Int)
  deriving DecidableEq, Repr

/-- The struct `Boat`. -/
structure Boat where
  name : List Char
  length : Int
  type : LocationType
  info : LocationInfo
  amount_owed : ℚ
  deriving DecidableEq

/-! ## Library functions used by the program -/

/-- The NUL character, the terminator of a C string. -/
def NUL : Char := Char.ofNat 0

/-- The string held by a buffer: its characters up to the first NUL. -/
def cstr (s : List Char) : List Char := s.takeWhile (fun c => c ≠ NUL)

/-- The value `tolower((unsigned char) c)` that `strcasecmp` compares (C locale). -/
def lowerKey (c : Char) : Int := (c.toLower.toNat : Int)

/-- The libc `strcasecmp`: walks both strings, stops at the first position where the
lowered characters differ or where the first string ends, and returns the difference
of the two lowered characters there. -/
def strcasecmp : List Char → List Char → Int
  | [], [] => 0
  | [], b :: _ => 0 - lowerKey b
  | a :: _, [] => lowerKey a - 0
  | a :: s, b :: t =>
    if lowerKey a ≠ lowerKey b then lowerKey a - lowerKey b
    else if lowerKey a = 0 then 0
    else strcasecmp s t

/-! ## The registry: `insertBoat` and `findBoat` -/

/-- The search loop of `insertBoat`,
`while (pos < count && strcasecmp(new_boat->name, boats[pos]->name) > 0) pos++;`
The first numeric argument is `count - pos`, the second is `pos`. -/
def insertBoat_pos (boats : Nat → Boat) (new_boat : Boat) : Nat → Nat → Nat
  | 0, pos => pos
  | n + 1, pos =>
    if strcasecmp new_boat.name (boats pos).name > 0 then
      insertBoat_pos boats new_boat n (pos + 1)
    else pos

/-- The shifting loop of `insertBoat`,
`for (int i = count; i > pos; i--) boats[i] = boats[i-1];`
The numeric argument is the loop variable `i`. -/
def insertBoat_shift (pos : Nat) : Nat → (Nat → Boat) → (Nat → Boat)
  | 0, boats => boats
  | i + 1, boats =>
    if i + 1 > pos then insertBoat_shift pos i (Function.update boats (i + 1) (boats i))
    else boats

/-- The function `insertBoat`: returns the array after the call and the returned count. -/
def insertBoat (boats : Nat → Boat) (count : Nat) (new_boat : Boat) : (Nat → Boat) × Nat :=
  if count ≥ MAX_BOATS then (boats, count)
  else
    let pos := insertBoat_pos boats new_boat count 0
    (Function.update (insertBoat_shift pos count boats) pos new_boat, count + 1)

/-- The loop of `findBoat`. The first numeric argument is `count - i`, the second is `i`. -/
def findBoat_loop (boats : Nat → Boat) (name : List Char) : Nat → Nat → Int
  | 0, _ => -1
  | n + 1, i =>
    if strcasecmp (boats i).name name = 0 then (i : Int)
    else findBoat_loop boats name n (i + 1)

/-- The function `findBoat`: the index of the first boat with the name, or `-1`. -/
def findBoat (boats : Nat → Boat) (count : Nat) (name : List Char) : Int :=
  findBoat_loop boats name count 0

/-! ## Specification vocabulary -/

/-- The live part of the registry as a sequence. -/
def registry (boats : Nat → Boat) (count : Nat) : List Boat :=
  (List.range count).map boats

/-- Case-insensitive non-descending order of two names. -/
def nameLe (a b : List Char) : Prop := strcasecmp a b ≤ 0

instance (a b : List Char) : Decidable (nameLe a b) := by
  unfold nameLe; infer_instance

/-- The first `count` names are in case-insensitive non-descending order. -/
def sortedByName (boats : Nat → Boat) (count : Nat) : Prop :=
  ∀ i j, i < j → j < count → nameLe (boats i).name (boats j).name

/-- A sequence of calls `count = insertBoat(boats, count, b)`, one for each boat of the
list, in order. -/
def insertBoats : (Nat → Boat) × Nat → List Boat → (Nat → Boat) × Nat
  | st, [] => st
  | st, b :: bs => insertBoats (insertBoat st.1 st.2 b) bs

/-- The index `pos` is the first index below `count` where `P` holds, or `count` when
there is none. -/
def firstIndexWhere (P : Nat → Prop) (count pos : Nat) : Prop :=
  pos ≤ count ∧ (∀ i, i < pos → ¬ P i) ∧ (pos < count → P pos)

/-- A boat on land, used in examples. -/
def landBoat (name : String) (length : Int) (bay : Char) : Boat :=
  { name := name.toList, length := length, type := LocationType.land,
    info := LocationInfo.bay_letter bay, amount_owed := 0 }

/-- An array whose slots all hold the same placeholder. -/
def blankArray : Nat → Boat := fun _ => landBoat "" 0 ' '

/-- Two names are equal when case is ignored: the strings they hold agree after
lowering every character. -/
def sameNameIgnoringCase (a b : List Char) : Prop :=
  (cstr a).map Char.toLower = (cstr b).map Char.toLower

/-- A registry holding the single boat Ann. -/
def oneAnn : Nat → Boat := Function.update blankArray 0 (landBoat "Ann" 10 'A')

/-- The lowered characters of the string a name holds. -/
def nameKeys (s : List Char) : List Int := (cstr s).map lowerKey

/-! ## Library conversions -/

/-- The libc `isspace` in the C locale: space, tab, newline, vertical tab, form feed,
carriage return. -/
def isspace (c : Char) : Bool := c = ' ' || (9 ≤ c.toNat && c.toNat ≤ 13)

/-- The libc `isdigit`. -/
def isdigit (c : Char) : Bool := 48 ≤ c.toNat && c.toNat ≤ 57

/-- The value of a decimal digit character. -/
def digitValue (c : Char) : Nat := c.toNat - 48

/-- The number written by a run of decimal digits, most significant first. -/
def decimalValue (ds : List Char) : Nat :=
  ds.foldl (fun acc c => 10 * acc + digitValue c) 0

/-- The decimal integer at the start of a string, as `strtol` with base 10 reads it: it
skips leading white space, reads an optional sign and the longest run of decimal digits,
and ignores what follows; it is 0 when there is no digit. -/
def decimalRead (s : List Char) : Int :=
  match s.dropWhile isspace with
  | [] => 0
  | c :: r =>
    if c = '-' then - (decimalValue (r.takeWhile isdigit) : Int)
    else if c = '+' then (decimalValue (r.takeWhile isdigit) : Int)
    else (decimalValue ((c :: r).takeWhile isdigit) : Int)

/-- The least value of `long` (64 bits). -/
def LONG_MIN : Int := -9223372036854775808

/-- The greatest value of `long` (64 bits). -/
def LONG_MAX : Int := 9223372036854775807

/-- The libc `strtol(s, NULL, 10)`: the integer read, kept within the range of `long`. -/
def strtol (s : List Char) : Int := max LONG_MIN (min (decimalRead s) LONG_MAX)

/-- The conversion of a `long` to `int`: the low 32 bits, read as a signed number. -/
def toInt (n : Int) : Int := (n + 2147483648) % 4294967296 - 2147483648

/-- The libc `atoi`, which is `(int) strtol(s, NULL, 10)`: a number outside the range of
`int` wraps around. -/
def atoi (s : List Char) : Int := toInt (strtol s)

/-- The exponent part read by `strtod` after the mantissa: `e` or `E`, an optional sign
and at least one digit; anything else counts as exponent 0. -/
def atof_exponent (s : List Char) : Int :=
  match s with
  | [] => 0
  | c :: r =>
    if c = 'e' ∨ c = 'E' then
      match r with
      | [] => 0
      | d :: t =>
        if d = '-' then - (decimalValue (t.takeWhile isdigit) : Int)
        else if d = '+' then (decimalValue (t.takeWhile isdigit) : Int)
        else (decimalValue ((d :: t).takeWhile isdigit) : Int)
    else 0

/-- The unsigned decimal number read by `strtod`: integer digits, an optional point with
fraction digits, an optional exponent. It yields 0 when neither part has a digit. -/
def atof_unsigned (s : List Char) : ℚ :=
  let ip := s.takeWhile isdigit
  let r1 := s.dropWhile isdigit
  let fp := if r1.head? = some '.' then r1.tail.takeWhile isdigit else []
  let r2 := if r1.head? = some '.' then r1.tail.dropWhile isdigit else r1
  if ip = [] ∧ fp = [] then 0
  else ((decimalValue (ip ++ fp) : ℚ) / 10 ^ fp.length) * 10 ^ atof_exponent r2

/-- The libc `atof` on decimal input: skips leading white space, reads an optional sign
and a decimal number, and ignores what follows; it yields 0 when there is no number.
The hexadecimal, infinity and NaN forms accepted by `strtod` are not modelled. -/
def atof (s : List Char) : ℚ :=
  match s.dropWhile isspace with
  | [] => 0
  | c :: r =>
    if c = '-' then - atof_unsigned r
    else if c = '+' then atof_unsigned r
    else atof_unsigned (c :: r)

/-- The character of a decimal digit. -/
def digitChar (d : Nat) : Char := Char.ofNat (48 + d)

/-- The decimal digits of a natural number, most significant first. The first argument
bounds the number of digits. -/
def natDigits : Nat → Nat → List Char
  | 0, _ => []
  | f + 1, n => if n < 10 then [digitChar n] else natDigits f (n / 10) ++ [digitChar (n % 10)]

/-- The conversion `%d` of `printf`. -/
def fmt_d (n : Int) : List Char :=
  if n < 0 then '-' :: natDigits (n.natAbs + 1) n.natAbs else natDigits (n.natAbs + 1) n.natAbs

/-- The number of hundredths nearest to `|x|`, ties to even: the rounding of `%.2f`. -/
def roundCents (x : ℚ) : Nat :=
  let q := |x| * 100
  let f := ⌊q⌋.toNat
  if q - f < 1 / 2 then f
  else if 1 / 2 < q - f then f + 1
  else if f % 2 = 0 then f else f + 1

/-- The conversion `%.2f` of `printf`: sign, integer part, point, two fraction digits. -/
def fmt_2f (x : ℚ) : List Char :=
  (if x < 0 then ['-'] else []) ++
    natDigits (roundCents x / 100 + 1) (roundCents x / 100) ++
    ['.', digitChar (roundCents x / 10 % 10), digitChar (roundCents x % 10)]

/-! ## The codec: `createBoatCSV` and `saveBoats` -/

/-- One call of `strtok` with the delimiter `","` on the rest of the line: skips leading
commas; returns no token at the end of the string, otherwise the token up to the next
comma and the rest after that comma. -/
def strtok (s : List Char) : Option (List Char × List Char) :=
  match s.dropWhile (fun c => c = ',') with
  | [] => none
  | c :: r =>
    some ((c :: r).takeWhile (fun c => c ≠ ','), ((c :: r).dropWhile (fun c => c ≠ ',')).drop 1)

/-- The chain of `strcmp` tests on the third token. -/
def locationKeyword (token : List Char) : Option LocationType :=
  if token = "slip".toList then some LocationType.slip
  else if token = "land".toList then some LocationType.land
  else if token = "trailor".toList then some LocationType.trailor
  else if token = "storage".toList then some LocationType.storage
  else none

/-- The `switch (b->type)` of `createBoatCSV` that fills the union from the fourth token.
`strncpy` copies at most 16 characters into `trailor_tag`; `token[0]` of an empty string
would be the terminator. -/
def locationValue (type : LocationType) (token : List Char) : LocationInfo :=
  match type with
  | LocationType.slip => LocationInfo.slip_number (atoi token)
  | LocationType.land => LocationInfo.bay_letter (token.headD NUL)
  | LocationType.trailor => LocationInfo.trailor_tag (token.take 16)
  | LocationType.storage => LocationInfo.storage_number (atoi token)

/-- The function `createBoatCSV`; `none` is the `NULL` result. The allocation is taken to
succeed. `strncpy` copies at most `MAX_NAME_LENGTH` characters of the first token into
`name`. -/
def createBoatCSV (line : List Char) : Option Boat := do
  let (t1, r1) ← strtok (cstr line)
  let (t2, r2) ← strtok r1
  let (t3, r3) ← strtok r2
  let type ← locationKeyword t3
  let (t4, r4) ← strtok r3
  let (t5, _) ← strtok r4
  pure { name := t1.take MAX_NAME_LENGTH, length := atoi t2, type := type,
         info := locationValue type t4, amount_owed := atof t5 }

/-- The `int` member of the union (`slip_number` and `storage_number` share it). Reading
it after another member was written depends on the memory layout; 0 stands for that. -/
def LocationInfo.number : LocationInfo → Int
  | LocationInfo.slip_number n => n
  | LocationInfo.storage_number n => n
  | _ => 0

/-- The member `bay_letter` of the union; a blank stands for a read after another
member was written. -/
def LocationInfo.letter : LocationInfo → Char
  | LocationInfo.bay_letter c => c
  | _ => ' '

/-- The member `trailor_tag` of the union, as the string `%s` prints; empty stands for a
read after another member was written. A tag of 16 characters fills the buffer and has no
terminator; what `%s` reads past the buffer is not modelled. -/
def LocationInfo.tag : LocationInfo → List Char
  | LocationInfo.trailor_tag s => cstr s
  | _ => []

/-- The text one `fprintf` of `saveBoats` writes for a boat, without the final newline. -/
def saveBoatLine (b : Boat) : List Char :=
  match b.type with
  | LocationType.slip =>
    cstr b.name ++ ",".toList ++ fmt_d b.length ++ ",slip,".toList ++
      fmt_d b.info.number ++ ",".toList ++ fmt_2f b.amount_owed
  | LocationType.land =>
    cstr b.name ++ ",".toList ++ fmt_d b.length ++ ",land,".toList ++
      [b.info.letter] ++ ",".toList ++ fmt_2f b.amount_owed
  | LocationType.trailor =>
    cstr b.name ++ ",".toList ++ fmt_d b.length ++ ",trailor,".toList ++
      b.info.tag ++ ",".toList ++ fmt_2f b.amount_owed
  | LocationType.storage =>
    cstr b.name ++ ",".toList ++ fmt_d b.length ++ ",storage,".toList ++
      fmt_d b.info.number ++ ",".toList ++ fmt_2f b.amount_owed

/-- The loop of `saveBoats`. The first numeric argument is `count - i`, the second `i`. -/
def saveBoats_loop (boats : Nat → Boat) : Nat → Nat → List Char
  | 0, _ => []
  | n + 1, i => saveBoatLine (boats i) ++ '\n' :: saveBoats_loop boats n (i + 1)

/-- The function `saveBoats`: the text written to the file (the file is taken to open). -/
def saveBoats (boats : Nat → Boat) (count : Nat) : List Char :=
  saveBoats_loop boats count 0

/-- The comma-separated fields of a string, by position: the string is cut at every
comma, so two adjacent commas enclose an empty field. -/
def commaFields : List Char → List (List Char)
  | [] => [[]]
  | c :: s =>
    if c = ',' then [] :: commaFields s
    else
      match commaFields s with
      | [] => [[c]]
      | f :: fs => (c :: f) :: fs

/-- The non-empty comma-separated fields of the string a line holds, in order. -/
def commaTokens (line : List Char) : List (List Char) :=
  (commaFields (cstr line)).filter (fun f => f ≠ [])

/-- The record `createBoatCSV` builds from five tokens and a location type. -/
def boatOfTokens (t1 t2 t4 t5 : List Char) (type : LocationType) : Boat :=
  { name := t1.take MAX_NAME_LENGTH, length := atoi t2, type := type,
    info := locationValue type t4, amount_owed := atof t5 }

/-! ## The arithmetic of `double` -/

/-- The integer nearest to a rational number, a tie going to the even neighbour. -/
def roundHalfEven (q : ℚ) : Int :=
  if q - ⌊q⌋ < 1 / 2 then ⌊q⌋
  else if 1 / 2 < q - ⌊q⌋ then ⌊q⌋ + 1
  else if ⌊q⌋ % 2 = 0 then ⌊q⌋ else ⌊q⌋ + 1

/-- The exponent of the binary64 interval a number lies in: `2 ^ e ≤ |q| < 2 ^ (e + 1)`,
and the least exponent of a normal number, -1022, for everything below it. -/
def binade (q : ℚ) : Int := max (Int.log 2 |q|) (-1022)

/-- Rounding to `double` (IEEE 754 binary64, round to nearest, ties to even): the
multiple of `2 ^ (binade q - 52)` nearest to `q`, so that 53 bits of the number are kept.
A magnitude of `2 ^ 1024` or more, which the machine turns into an infinity, is outside
this model. -/
def fl (q : ℚ) : ℚ :=
  (roundHalfEven (q / 2 ^ (binade q - 52)) : ℚ) * 2 ^ (binade q - 52)

/-- How sums, products and decimal constants of type `double` are evaluated. -/
structure Arithmetic where
  plus : ℚ → ℚ → ℚ
  times : ℚ → ℚ → ℚ
  constant : ℚ → ℚ

/-- Exact arithmetic: what `double` arithmetic computes when no operation rounds. -/
def exactArithmetic : Arithmetic :=
  { plus := fun a b => a + b, times := fun a b => a * b, constant := fun c => c }

/-- The arithmetic of the machine: every sum, product and decimal constant is rounded to
`double`. -/
def doubleArithmetic : Arithmetic :=
  { plus := fun a b => fl (a + b), times := fun a b => fl (a * b), constant := fun c => fl c }

/-! ## The payment and monthly-charge commands of `main` -/

/-- What the payment command prints. -/
inductive PaymentReport where
  | no_boat
  | invalid_input
  | too_much (owed : ℚ)
  | nothing
  deriving DecidableEq

/-- The command `p` of `main`. `input_name` is the name read, `payment` the amount
`scanf("%lf")` read, or `none` when it read no number. Returns the array after the command
and the message printed: "No boat with that name", "Invalid input", or "That is more than
the amount owed" with the amount owed. -/
def main_p (boats : Nat → Boat) (count : Nat) (input_name : List Char)
    (payment : Option ℚ) : (Nat → Boat) × PaymentReport :=
  let index := findBoat boats count input_name
  if index = -1 then (boats, PaymentReport.no_boat)
  else
    match payment with
    | none => (boats, PaymentReport.invalid_input)
    | some p =>
      let b := boats index.toNat
      if p > b.amount_owed then (boats, PaymentReport.too_much b.amount_owed)
      else
        (Function.update boats index.toNat { b with amount_owed := b.amount_owed - p },
          PaymentReport.nothing)

/-- The `switch (b->type)` of the command `m`: the monthly rate per foot. -/
def monthlyRate (type : LocationType) : ℚ :=
  match type with
  | LocationType.slip => SLIP_RATE
  | LocationType.land => LAND_RATE
  | LocationType.trailor => TRAILOR_RATE
  | LocationType.storage => STORAGE_RATE

/-- The loop of the command `m`, `b->amount_owed += b->length * rate` for every boat, in
a given arithmetic of `double`; the conversion of the `int` length to `double` is exact.
The first numeric argument is `boat_count - i`, the second `i`. -/
def main_m_loop_in (A : Arithmetic) : Nat → Nat → (Nat → Boat) → (Nat → Boat)
  | 0, _, boats => boats
  | n + 1, i, boats =>
    main_m_loop_in A n (i + 1)
      (Function.update boats i
        { boats i with
          amount_owed :=
            A.plus (boats i).amount_owed
              (A.times (boats i).length (A.constant (monthlyRate (boats i).type))) })

/-- The loop of the command `m` in exact arithmetic. -/
def main_m_loop : Nat → Nat → (Nat → Boat) → (Nat → Boat) :=
  main_m_loop_in exactArithmetic

/-- The command `m` of `main` in exact arithmetic: the array after the command;
`boat_count` is not assigned. It is what the command computes when no operation rounds,
and serves the statements that do not depend on rounding. -/
def main_m (boats : Nat → Boat) (count : Nat) : Nat → Boat :=
  main_m_loop count 0 boats

/-- The command `m` of `main` in the arithmetic of the machine: the array after the
command. -/
def main_m_double (boats : Nat → Boat) (count : Nat) : Nat → Boat :=
  main_m_loop_in doubleArithmetic count 0 boats

/-- The boat of the example line `Eleanor,28,slip,23,1200.50`. -/
def eleanor : Boat :=
  { name := "Eleanor".toList, length := 28, type := LocationType.slip,
    info := LocationInfo.slip_number 23, amount_owed := 1200.50 }

/-- A registry holding the single boat Eleanor. -/
def oneEleanor : Nat → Boat := Function.update blankArray 0 eleanor

/-- A boat of 3 ft in storage owing nothing, as the line `B,3,storage,1,0.00` gives. -/
def barge : Boat :=
  { name := "B".toList, length := 3, type := LocationType.storage,
    info := LocationInfo.storage_number 1, amount_owed := 0 }

/-- A boat of 1 ft in a slip owing the `double` nearest to 0.01, which the machine holds
for the line `A,1,slip,1,0.01`. -/
def skiff : Boat :=
  { name := "A".toList, length := 1, type := LocationType.slip,
    info := LocationInfo.slip_number 1, amount_owed := 5764607523034235 / 2 ^ 59 }

/-! ## Vocabulary for the line format -/

/-- The four location keywords of the file format. -/
def locationKeywords : List (List Char) :=
  ["slip".toList, "land".toList, "trailor".toList, "storage".toList]

/-- The text starts with a character that cannot begin a number: not white space, not a
sign, not a digit, not a point, and not the first letter of `inf` or `nan`. -/
def startsNonNumeric (t : List Char) : Prop :=
  ∃ c r, t = c :: r ∧ isspace c = false ∧ isdigit c = false ∧
    c ∉ ['+', '-', '.', 'i', 'I', 'n', 'N']

/-- A text that can stand between two commas of a line: not empty, no comma, no NUL. -/
def isField (f : List Char) : Prop := f ≠ [] ∧ ',' ∉ f ∧ NUL ∉ f

/-- A non-empty run of decimal digits. -/
def isDigits (ds : List Char) : Prop := ds ≠ [] ∧ ∀ c ∈ ds, isdigit c = true

/-- The number a run of decimal digits denotes, most significant digit first. -/
def digitsNumber (ds : List Char) : Nat := Nat.ofDigits 10 (ds.reverse.map digitValue)

/-- The integer is a value of the C type `int` (32 bits). -/
def isInt (n : Int) : Prop := -2147483648 ≤ n ∧ n ≤ 2147483647

instance (n : Int) : Decidable (isInt n) := by
  unfold isInt; infer_instance

/-- The text `s` is a decimal integer, an optional sign and digits, denoting `n`. -/
def decimalInteger (s : List Char) (n : Int) : Prop :=
  ∃ ds, isDigits ds ∧
    ((s = ds ∧ n = digitsNumber ds) ∨ (s = '+' :: ds ∧ n = digitsNumber ds) ∨
      (s = '-' :: ds ∧ n = - (digitsNumber ds : Int)))

/-- The text `s` is a decimal amount, an optional sign, digits and optionally a point
with fraction digits, denoting `q`. -/
def decimalAmount (s : List Char) (q : ℚ) : Prop :=
  ∃ ip fp, isDigits ip ∧ (∀ c ∈ fp, isdigit c = true) ∧
    ∃ body, ((body = ip ∧ fp = []) ∨ body = ip ++ '.' :: fp) ∧
      ((s = body ∧ q = (digitsNumber ip : ℚ) + (digitsNumber fp : ℚ) / 10 ^ fp.length) ∨
       (s = '+' :: body ∧ q = (digitsNumber ip : ℚ) + (digitsNumber fp : ℚ) / 10 ^ fp.length) ∨
       (s = '-' :: body ∧
          q = - ((digitsNumber ip : ℚ) + (digitsNumber fp : ℚ) / 10 ^ fp.length)))

/-- Fields written one after the other with a comma between neighbours. -/
def joinComma : List (List Char) → List Char
  | [] => []
  | [f] => f
  | f :: g :: fs => f ++ ',' :: joinComma (g :: fs)

/-- A boat that the line format can carry: the name is a field shorter than the name
buffer, the length and a slip or storage number are values of `int`, the payload is the
member that belongs to the location type, a bay letter is neither a comma nor NUL, a
trailer tag is a field of at most 15 characters, and the amount owed is a whole number of
hundredths. -/
def lineBoat (b : Boat) : Prop :=
  isField b.name ∧ b.name.length < MAX_NAME_LENGTH ∧ isInt b.length ∧
  (∃ k : Int, b.amount_owed = (k : ℚ) / 100) ∧
  ((b.type = LocationType.slip ∧ ∃ n, b.info = LocationInfo.slip_number n ∧ isInt n) ∨
   (b.type = LocationType.land ∧ ∃ c, b.info = LocationInfo.bay_letter c ∧ c ≠ ',' ∧ c ≠ NUL) ∨
   (b.type = LocationType.trailor ∧
      ∃ s, b.info = LocationInfo.trailor_tag s ∧ isField s ∧ s.length ≤ 15) ∨
   (b.type = LocationType.storage ∧ ∃ n, b.info = LocationInfo.storage_number n ∧ isInt n))

/-- A boat on land named `Sea,Star`, 10 ft, bay A, owing 0.00. -/
def seaStar : Boat := landBoat "Sea,Star" 10 'A'

/-! ## The remove and add commands of `main` -/

/-- The shifting loop of the command `r`,
`for (int i = index; i < boat_count - 1; i++) boats[i] = boats[i + 1];`
The first numeric argument is `boat_count - 1 - i`, the second `i`. -/
def main_r_shift : Nat → Nat → (Nat → Boat) → (Nat → Boat)
  | 0, _, boats => boats
  | n + 1, i, boats => main_r_shift n (i + 1) (Function.update boats i (boats (i + 1)))

/-- The command `r` of `main`. `input_name` is the name read (the final newline cut off).
Returns the array and `boat_count` after the command; when no boat has the name, "No boat
with that name" is printed and nothing changes. The removed boat is freed. -/
def main_r (boats : Nat → Boat) (count : Nat) (input_name : List Char) :
    (Nat → Boat) × Nat :=
  let index := findBoat boats count input_name
  if index = -1 then (boats, count)
  else (main_r_shift (count - 1 - index.toNat) index.toNat boats, count - 1)

/-- The command `a` of `main`. `csv_line` is the line read (the final newline cut off).
Returns the array and `boat_count` after the command; a full marina prints "Cannot add
more boats" and a line that does not parse prints "Invalid input". -/
def main_a (boats : Nat → Boat) (count : Nat) (csv_line : List Char) :
    (Nat → Boat) × Nat :=
  if count ≥ MAX_BOATS then (boats, count)
  else
    match createBoatCSV csv_line with
    | some new_boat => insertBoat boats count new_boat
    | none => (boats, count)

/-- A registry holding Ann and Zed, in this order. -/
def annZed : Nat → Boat :=
  Function.update (Function.update blankArray 0 (landBoat "Ann" 10 'A')) 1
    (landBoat "Zed" 10 'B')

/-! ## Bulk load: `loadBoats` -/

/-- The characters one `fgets` call stores and the rest of the stream: it reads until a
newline has been stored or the given number of characters has been read. -/
def fgets_read : Nat → List Char → List Char × List Char
  | 0, stream => ([], stream)
  | _ + 1, [] => ([], [])
  | k + 1, c :: stream =>
    if c = '\n' then ([c], stream)
    else ((c :: (fgets_read k stream).1), (fgets_read k stream).2)

/-- The libc `fgets` with a buffer of `size` characters on the unread rest of a file:
`none` at the end of the file, otherwise the characters stored (at most `size - 1`) and
the rest of the file. -/
def fgets (size : Nat) (stream : List Char) : Option (List Char × List Char) :=
  match stream with
  | [] => none
  | _ :: _ => some (fgets_read (size - 1) stream)

/-- The statement `line[strcspn(line, "\n")] = '\0';` of `loadBoats`: the string in the
buffer, cut at its first newline. -/
def loadBoats_cut (line : List Char) : List Char :=
  (cstr line).takeWhile (fun c => c ≠ '\n')

/-- The loop of `loadBoats`,
`while (fgets(line, sizeof(line), fp) && count < MAX_BOATS) ...`, on the unread rest of
the file. The first argument bounds the number of iterations; every iteration reads at
least one character, so the length of the file is enough. -/
def loadBoats_loop : Nat → List Char → (Nat → Boat) → Nat → (Nat → Boat) × Nat
  | 0, _, boats, count => (boats, count)
  | fuel + 1, stream, boats, count =>
    match fgets 256 stream with
    | none => (boats, count)
    | some (line, rest) =>
      if count < MAX_BOATS then
        match createBoatCSV (loadBoats_cut line) with
        | some b => loadBoats_loop fuel rest (Function.update boats count b) (count + 1)
        | none => loadBoats_loop fuel rest boats count
      else (boats, count)

/-- The function `loadBoats`: `file` is the content of the file, or `none` when it cannot
be opened. Returns the array after the call and the returned count. -/
def loadBoats (file : Option (List Char)) (boats : Nat → Boat) : (Nat → Boat) × Nat :=
  match file with
  | none => (boats, 0)
  | some text => loadBoats_loop text.length text boats 0

/-- The text of a file made of the given lines, each followed by a newline. -/
def fileText : List (List Char) → List Char
  | [] => []
  | l :: ls => l ++ '\n' :: fileText ls

/-- A line of a file that one `fgets` call of `loadBoats` reads whole: it contains no
newline and has fewer than 255 characters. -/
def isLine (l : List Char) : Prop := '\n' ∉ l ∧ l.length < 255

/-- Records stored one after the other from index `count` on, as long as there is room. -/
def storeRecords : List Boat → (Nat → Boat) → Nat → (Nat → Boat) × Nat
  | [], boats, count => (boats, count)
  | b :: bs, boats, count =>
    if count < MAX_BOATS then storeRecords bs (Function.update boats count b) (count + 1)
    else (boats, count)

/-- A registry holding Zed and Ann, in this order. -/
def zedAnn : Nat → Boat :=
  Function.update (Function.update blankArray 0 (landBoat "Zed" 10 'B')) 1
    (landBoat "Ann" 10 'A')

/-! ## The command loop and the inventory -/

/-- A command of the loop of `main` that changes the registry, with the input it reads. -/
inductive Command where
  | add (csv_line : List Char)
  | remove (input_name : List Char)
  | payment (input_name : List Char) (amount : Option ℚ)
  | month

/-- One pass of the loop of `main` for an add, remove, payment or month command, on the
array and `boat_count`. -/
def runCommand (st : (Nat → Boat) × Nat) : Command → (Nat → Boat) × Nat
  | Command.add csv_line => main_a st.1 st.2 csv_line
  | Command.remove input_name => main_r st.1 st.2 input_name
  | Command.payment input_name amount => ((main_p st.1 st.2 input_name amount).1, st.2)
  | Command.month => (main_m st.1 st.2, st.2)

/-- A sequence of passes of the loop of `main`. -/
def runCommands : (Nat → Boat) × Nat → List Command → (Nat → Boat) × Nat
  | st, [] => st
  | st, c :: cs => runCommands (runCommand st c) cs

/-- The function `compareBoats`, the comparison handed to `qsort`. -/
def compareBoats (a b : Boat) : Int := strcasecmp a.name b.name

/-- The order `compareBoats` sorts by: the first boat does not come after the second. -/
def boatLe (a b : Boat) : Prop := compareBoats a b ≤ 0

instance (a b : Boat) : Decidable (boatLe a b) := by
  unfold boatLe; infer_instance

/-- The contract of `qsort(boats, count, sizeof(Boat *), compareBoats)` in the C standard:
`after` holds in its first `count` slots the same pointers as `boats`, in ascending order
of the comparison, and has every other slot as before. The standard leaves the order of
elements that compare equal open. -/
def qsortContract (boats : Nat → Boat) (count : Nat) (after : Nat → Boat) : Prop :=
  (registry after count).Perm (registry boats count) ∧
  (∀ i j, i < j → j < count → compareBoats (after i) (after j) ≤ 0) ∧
  (∀ k, count ≤ k → after k = boats k)

/-- The libc call `qsort(boats, count, sizeof(Boat *), compareBoats)`: the array after the
call. The first `count` slots are sorted by insertion, one of the results the contract
allows (boats of equal name keep their order); no theorem depends on this choice beyond
the contract. -/
def qsort (boats : Nat → Boat) (count : Nat) : Nat → Boat :=
  fun k => ((List.insertionSort boatLe (registry boats count)).get? k).getD (boats k)

/-- The function `printInventory`: the array after the call. It sorts the array in place
with `qsort`; the printing loop that follows only reads, and its text is not modelled. -/
def printInventory (boats : Nat → Boat) (count : Nat) : Nat → Boat :=
  qsort boats count

/-- The first `count` names are in strictly ascending case-insensitive order. -/
def strictlySortedByName (boats : Nat → Boat) (count : Nat) : Prop :=
  ∀ i j, i < j → j < count → strcasecmp (boats i).name (boats j).name < 0

/-- The boat of the line `Eel,-5,slip,1,100.00`. -/
def eel : Boat :=
  { name := "Eel".toList, length := -5, type := LocationType.slip,
    info := LocationInfo.slip_number 1, amount_owed := 100 }

/-! # Theorems -/

theorem lowerKey_nonneg (c : Char) : 0 ≤ lowerKey c := by
  unfold lowerKey; exact Int.ofNat_nonneg _

theorem strcasecmp_swap : ∀ a b : List Char, strcasecmp b a = - strcasecmp a b
  | [], [] => by simp [strcasecmp]
  | [], b :: _ => by simp [strcasecmp]
  | a :: _, [] => by simp [strcasecmp]
  | a :: s, b :: t => by
    have ih := strcasecmp_swap s t
    simp only [strcasecmp]
    split_ifs <;> omega

theorem nameLe_total (a b : List Char) (h : ¬ nameLe a b) : nameLe b a := by
  unfold nameLe at *
  rw [strcasecmp_swap a b]; omega

theorem nameLe_trans : ∀ a b c : List Char, nameLe a b → nameLe b c → nameLe a c
  | [], _, [] => fun _ _ => by simp [nameLe, strcasecmp]
  | [], _, z :: _ => fun _ _ => by
    have := lowerKey_nonneg z
    simp only [nameLe, strcasecmp]; omega
  | x :: s, [], [] => fun h _ => by
    simpa [nameLe, strcasecmp] using h
  | x :: s, [], z :: u => fun h _ => by
    have hx := lowerKey_nonneg x
    have hz := lowerKey_nonneg z
    simp only [nameLe, strcasecmp] at *
    split_ifs <;> omega
  | x :: s, y :: t, [] => fun h1 h2 => by
    have hx := lowerKey_nonneg x
    have hy := lowerKey_nonneg y
    simp only [nameLe, strcasecmp] at *
    split_ifs at h1 <;> omega
  | x :: s, y :: t, z :: u => fun h1 h2 => by
    have ih := nameLe_trans s t u
    have hx := lowerKey_nonneg x
    have hy := lowerKey_nonneg y
    have hz := lowerKey_nonneg z
    simp only [nameLe, strcasecmp] at *
    split_ifs at h1 h2 ⊢ <;> omega

theorem insertBoat_shift_apply (pos : Nat) :
    ∀ (i : Nat) (boats : Nat → Boat) (k : Nat),
      insertBoat_shift pos i boats k = if pos < k ∧ k ≤ i then boats (k - 1) else boats k
  | 0, boats, k => by
    simp only [insertBoat_shift]
    split_ifs with h
    · omega
    · rfl
  | i + 1, boats, k => by
    simp only [insertBoat_shift]
    split_ifs with h1 h2 h3
    · rw [insertBoat_shift_apply pos i]
      by_cases hk : k = i + 1
      · subst hk
        have : ¬ (pos < i + 1 ∧ i + 1 ≤ i) := by omega
        simp [this]
      · have : pos < k ∧ k ≤ i := by omega
        have h4 : k - 1 ≠ i + 1 := by omega
        simp [this, Function.update_noteq h4]
    · rw [insertBoat_shift_apply pos i]
      have : ¬ (pos < k ∧ k ≤ i) := by omega
      have h4 : k ≠ i + 1 := by omega
      simp [this, Function.update_noteq h4]
    · omega
    · rfl

theorem insertBoat_pos_spec (boats : Nat → Boat) (nb : Boat) :
    ∀ (n pos : Nat),
      pos ≤ insertBoat_pos boats nb n pos ∧ insertBoat_pos boats nb n pos ≤ pos + n ∧
      (∀ k, pos ≤ k → k < insertBoat_pos boats nb n pos →
        strcasecmp nb.name (boats k).name > 0) ∧
      (insertBoat_pos boats nb n pos < pos + n →
        strcasecmp nb.name (boats (insertBoat_pos boats nb n pos)).name ≤ 0)
  | 0, pos => by simp [insertBoat_pos]; intro k h1 h2; omega
  | n + 1, pos => by
    simp only [insertBoat_pos]
    split_ifs with h
    · obtain ⟨h1, h2, h3, h4⟩ := insertBoat_pos_spec boats nb n (pos + 1)
      refine ⟨by omega, by omega, ?_, fun hlt => h4 (by omega)⟩
      intro k hk1 hk2
      by_cases hk : k = pos
      · subst hk; exact h
      · exact h3 k (by omega) hk2
    · refine ⟨le_refl _, by omega, fun k h1 h2 => by omega, fun _ => by omega⟩

theorem char_toNat_inj {a b : Char} (h : a.toNat = b.toNat) : a = b := by
  rw [← Char.ofNat_toNat a, ← Char.ofNat_toNat b, h]

theorem toLower_eq_NUL {c : Char} (h : c.toLower = NUL) : c = NUL := by
  unfold Char.toLower at h
  simp only at h
  split_ifs at h with hc
  · exfalso
    obtain ⟨h1, h2⟩ := hc
    have h3 : (Char.ofNat (c.toNat + 32)).toNat = 0 := by rw [h]; rfl
    generalize c.toNat = n at h1 h2 h3
    interval_cases n <;> revert h3 <;> decide
  · exact h

theorem lowerKey_eq_zero {c : Char} : lowerKey c = 0 ↔ c = NUL := by
  constructor
  · intro h
    apply toLower_eq_NUL
    apply char_toNat_inj
    unfold lowerKey at h
    have : c.toLower.toNat = 0 := by exact_mod_cast h
    rw [this]; rfl
  · rintro rfl; rfl

theorem lowerKey_eq_iff {a b : Char} : lowerKey a = lowerKey b ↔ a.toLower = b.toLower := by
  constructor
  · intro h
    apply char_toNat_inj
    unfold lowerKey at h
    exact_mod_cast h
  · intro h; unfold lowerKey; rw [h]

theorem lowerKey_NUL : lowerKey NUL = 0 := rfl

theorem cstr_nil : cstr [] = [] := rfl

theorem cstr_cons_NUL (s : List Char) : cstr (NUL :: s) = [] := by
  simp [cstr]

theorem cstr_cons_of_ne {a : Char} (h : a ≠ NUL) (s : List Char) :
    cstr (a :: s) = a :: cstr s := by
  simp [cstr, h]

theorem strcasecmp_cons_ne {a b : Char} (h : lowerKey a ≠ lowerKey b) (s t : List Char) :
    strcasecmp (a :: s) (b :: t) = lowerKey a - lowerKey b := by
  simp [strcasecmp, h]

theorem strcasecmp_cons_end {a b : Char} (h : lowerKey a = lowerKey b) (h0 : lowerKey a = 0)
    (s t : List Char) : strcasecmp (a :: s) (b :: t) = 0 := by
  simp only [strcasecmp]
  rw [if_neg (not_not.mpr h), if_pos h0]

theorem strcasecmp_cons_eq {a b : Char} (h : lowerKey a = lowerKey b) (h0 : lowerKey a ≠ 0)
    (s t : List Char) : strcasecmp (a :: s) (b :: t) = strcasecmp s t := by
  simp only [strcasecmp]
  rw [if_neg (not_not.mpr h), if_neg h0]

theorem strcasecmp_eq_zero_iff : ∀ a b : List Char,
    strcasecmp a b = 0 ↔ sameNameIgnoringCase a b
  | [], [] => by simp [strcasecmp, sameNameIgnoringCase, cstr]
  | [], b :: t => by
    unfold sameNameIgnoringCase
    by_cases h : b = NUL
    · subst h
      simp [strcasecmp, cstr_cons_NUL, cstr_nil, lowerKey_NUL]
    · have : lowerKey b ≠ 0 := fun h0 => h (lowerKey_eq_zero.mp h0)
      simp only [strcasecmp, cstr_cons_of_ne h, cstr_nil, List.map_nil, List.map_cons]
      constructor
      · intro h1; omega
      · intro h1; cases h1
  | a :: s, [] => by
    unfold sameNameIgnoringCase
    by_cases h : a = NUL
    · subst h
      simp [strcasecmp, cstr_cons_NUL, cstr_nil, lowerKey_NUL]
    · have : lowerKey a ≠ 0 := fun h0 => h (lowerKey_eq_zero.mp h0)
      simp only [strcasecmp, cstr_cons_of_ne h, cstr_nil, List.map_nil, List.map_cons]
      constructor
      · intro h1; omega
      · intro h1; cases h1
  | a :: s, b :: t => by
    have ih := strcasecmp_eq_zero_iff s t
    unfold sameNameIgnoringCase at ih ⊢
    by_cases h1 : lowerKey a = lowerKey b
    · by_cases h2 : lowerKey a = 0
      · have e1 : a = NUL := lowerKey_eq_zero.mp h2
        have e2 : b = NUL := lowerKey_eq_zero.mp (h1 ▸ h2)
        rw [strcasecmp_cons_end h1 h2]
        subst e1; subst e2
        simp [cstr_cons_NUL]
      · have e1 : a ≠ NUL := fun e => h2 (lowerKey_eq_zero.mpr e)
        have e2 : b ≠ NUL := fun e => h2 (h1 ▸ lowerKey_eq_zero.mpr e)
        rw [strcasecmp_cons_eq h1 h2, cstr_cons_of_ne e1, cstr_cons_of_ne e2, ih]
        simp [lowerKey_eq_iff.mp h1]
    · have hne : a.toLower ≠ b.toLower := fun e => h1 (lowerKey_eq_iff.mpr e)
      rw [strcasecmp_cons_ne h1]
      constructor
      · intro h0; omega
      · intro h0
        exfalso
        by_cases e1 : a = NUL
        · by_cases e2 : b = NUL
          · exact h1 (by rw [e1, e2])
          · rw [e1, cstr_cons_NUL, cstr_cons_of_ne e2] at h0
            cases h0
        · by_cases e2 : b = NUL
          · rw [e2, cstr_cons_NUL, cstr_cons_of_ne e1] at h0
            cases h0
          · rw [cstr_cons_of_ne e1, cstr_cons_of_ne e2] at h0
            simp only [List.map_cons, List.cons.injEq] at h0
            exact hne h0.1

theorem nameKeys_nil : nameKeys [] = [] := rfl

theorem nameKeys_cons_NUL (s : List Char) : nameKeys (NUL :: s) = [] := by
  simp [nameKeys, cstr_cons_NUL]

theorem nameKeys_cons_of_ne {a : Char} (h : a ≠ NUL) (s : List Char) :
    nameKeys (a :: s) = lowerKey a :: nameKeys s := by
  simp [nameKeys, cstr_cons_of_ne h]

theorem lowerKey_pos {c : Char} (h : c ≠ NUL) : 0 < lowerKey c := by
  have h1 := lowerKey_nonneg c
  have h2 : lowerKey c ≠ 0 := fun h0 => h (lowerKey_eq_zero.mp h0)
  omega

/-- The result of `strcasecmp` is negative exactly when the lowered first string comes
before the lowered second string in the lexicographic order. -/
theorem strcasecmp_neg_iff_lex : ∀ a b : List Char,
    strcasecmp a b < 0 ↔ List.Lex (fun x y : Int => x < y) (nameKeys a) (nameKeys b)
  | [], [] => by simp [strcasecmp, nameKeys_nil]
  | [], b :: t => by
    by_cases hb : b = NUL
    · subst hb
      simp [strcasecmp, nameKeys_nil, nameKeys_cons_NUL, lowerKey_NUL]
    · have := lowerKey_pos hb
      rw [nameKeys_nil, nameKeys_cons_of_ne hb]
      simp only [strcasecmp]
      exact ⟨fun _ => List.Lex.nil, fun _ => by omega⟩
  | a :: s, [] => by
    have := lowerKey_nonneg a
    simp only [strcasecmp, nameKeys_nil, List.Lex.not_nil_right, iff_false]
    omega
  | a :: s, b :: t => by
    have ih := strcasecmp_neg_iff_lex s t
    by_cases ha : a = NUL
    · by_cases hb : b = NUL
      · subst ha; subst hb
        rw [strcasecmp_cons_end rfl lowerKey_NUL]
        simp only [nameKeys_cons_NUL]
        simp
      · have hpos := lowerKey_pos hb
        subst ha
        have hne : lowerKey NUL ≠ lowerKey b := by rw [lowerKey_NUL]; omega
        rw [strcasecmp_cons_ne hne, nameKeys_cons_NUL, nameKeys_cons_of_ne hb, lowerKey_NUL]
        exact ⟨fun _ => List.Lex.nil, fun _ => by omega⟩
    · have hapos := lowerKey_pos ha
      by_cases hb : b = NUL
      · subst hb
        have hne : lowerKey a ≠ lowerKey NUL := by rw [lowerKey_NUL]; omega
        rw [strcasecmp_cons_ne hne, nameKeys_cons_NUL, lowerKey_NUL]
        simp only [List.Lex.not_nil_right, iff_false]
        omega
      · rw [nameKeys_cons_of_ne ha, nameKeys_cons_of_ne hb]
        by_cases hab : lowerKey a = lowerKey b
        · rw [strcasecmp_cons_eq hab (by omega), ih, hab]
          exact List.Lex.cons_iff.symm
        · rw [strcasecmp_cons_ne hab]
          constructor
          · intro h
            exact List.Lex.rel (by omega)
          · intro h
            generalize lowerKey a = x at h hab ⊢
            generalize lowerKey b = y at h hab ⊢
            cases h with
            | cons h' => exact absurd rfl hab
            | rel h' => omega

/-- Case-insensitive order of names is the lexicographic order of the lowered strings:
`a` is at most `b` exactly when lowered `b` does not come before lowered `a`. -/
theorem nameLe_iff_lex (a b : List Char) :
    nameLe a b ↔ ¬ List.Lex (fun x y : Int => x < y) (nameKeys b) (nameKeys a) := by
  rw [← strcasecmp_neg_iff_lex]
  unfold nameLe
  rw [strcasecmp_swap a b]
  omega

theorem insertBoat_apply (boats : Nat → Boat) (count : Nat) (nb : Boat)
    (h : count < MAX_BOATS) (k : Nat) :
    (insertBoat boats count nb).1 k =
      if k < insertBoat_pos boats nb count 0 then boats k
      else if k = insertBoat_pos boats nb count 0 then nb
      else if k ≤ count then boats (k - 1) else boats k := by
  have hp := (insertBoat_pos_spec boats nb count 0).2.1
  unfold insertBoat
  rw [if_neg (by omega)]
  simp only
  by_cases hk : k = insertBoat_pos boats nb count 0
  · rw [hk, Function.update_same]; simp
  · rw [Function.update_noteq hk, insertBoat_shift_apply]
    by_cases h1 : k < insertBoat_pos boats nb count 0
    · have : ¬ (insertBoat_pos boats nb count 0 < k ∧ k ≤ count) := by omega
      simp [h1, this]
    · by_cases h2 : k ≤ count
      · have : insertBoat_pos boats nb count 0 < k ∧ k ≤ count := by omega
        simp [h1, hk, h2, this]
      · have : ¬ (insertBoat_pos boats nb count 0 < k ∧ k ≤ count) := by omega
        simp [h1, hk, h2, this]

theorem insertBoat_count (boats : Nat → Boat) (count : Nat) (nb : Boat)
    (h : count < MAX_BOATS) : (insertBoat boats count nb).2 = count + 1 := by
  unfold insertBoat
  rw [if_neg (by omega)]

theorem insertBoat_full (boats : Nat → Boat) (count : Nat) (nb : Boat)
    (h : count ≥ MAX_BOATS) : insertBoat boats count nb = (boats, count) := by
  unfold insertBoat
  rw [if_pos h]

theorem insertBoat_sorted (boats : Nat → Boat) (count : Nat) (nb : Boat)
    (hs : sortedByName boats count) :
    sortedByName (insertBoat boats count nb).1 (insertBoat boats count nb).2 := by
  by_cases hc : count < MAX_BOATS
  · obtain ⟨-, hp2, hp3, hp4⟩ := insertBoat_pos_spec boats nb count 0
    intro i j hij hj
    rw [insertBoat_count boats count nb hc] at hj
    rw [insertBoat_apply boats count nb hc, insertBoat_apply boats count nb hc]
    generalize insertBoat_pos boats nb count 0 = p at hp2 hp3 hp4
    have below : ∀ k, k < p → nameLe (boats k).name nb.name := fun k hk =>
      nameLe_total _ _ (by
        have := hp3 k (Nat.zero_le _) hk
        unfold nameLe; omega)
    have above : ∀ k, p ≤ k → k < count → nameLe nb.name (boats k).name := by
      intro k hk1 hk2
      have h0 : nameLe nb.name (boats p).name := hp4 (by omega)
      by_cases hkp : k = p
      · rw [hkp]; exact h0
      · exact nameLe_trans _ _ _ h0 (hs p k (by omega) hk2)
    by_cases hi : i < p
    · rw [if_pos hi]
      by_cases hj1 : j < p
      · rw [if_pos hj1]; exact hs i j hij (by omega)
      · rw [if_neg hj1]
        by_cases hj2 : j = p
        · rw [if_pos hj2]; exact below i hi
        · rw [if_neg hj2, if_pos (by omega)]
          by_cases hij2 : i = j - 1
          · omega
          · exact hs i (j - 1) (by omega) (by omega)
    · rw [if_neg hi, if_neg (by omega : ¬ j < p), if_neg (by omega : ¬ j = p),
        if_pos (by omega : j ≤ count)]
      by_cases hi2 : i = p
      · rw [if_pos hi2]; exact above (j - 1) (by omega) (by omega)
      · rw [if_neg hi2, if_pos (by omega)]
        exact hs (i - 1) (j - 1) (by omega) (by omega)
  · rw [insertBoat_full boats count nb (by omega)]
    exact hs

theorem insertBoats_sorted : ∀ (news : List Boat) (st : (Nat → Boat) × Nat),
    sortedByName st.1 st.2 → sortedByName (insertBoats st news).1 (insertBoats st news).2
  | [], _, hs => hs
  | b :: bs, st, hs => by
    simp only [insertBoats]
    exact insertBoats_sorted bs _ (insertBoat_sorted st.1 st.2 b hs)

/-- C1. Order invariant of `insertBoat`: a registry whose first `count` names are in
case-insensitive non-descending order is again in that order after one `insertBoat`
call with any boat, and hence after any sequence of `insertBoat` calls; with `count = 0`
this covers every sequence of inserts into the empty registry. -/
theorem insertBoat_preserves_order (boats : Nat → Boat) (count : Nat)
    (hs : sortedByName boats count) :
    (∀ nb : Boat,
      sortedByName (insertBoat boats count nb).1 (insertBoat boats count nb).2) ∧
    (∀ news : List Boat,
      sortedByName (insertBoats (boats, count) news).1 (insertBoats (boats, count) news).2) :=
  ⟨fun nb => insertBoat_sorted boats count nb hs,
   fun news => insertBoats_sorted news (boats, count) hs⟩

/-- Witness for C1: inserting Zed and then Ann into the empty registry gives count 2
with Ann before Zed, in order. -/
theorem insertBoat_preserves_order_witness :
    sortedByName blankArray 0 ∧
    (insertBoats (blankArray, 0) [landBoat "Zed" 10 'B', landBoat "Ann" 10 'A']).2 = 2 ∧
    registry (insertBoats (blankArray, 0) [landBoat "Zed" 10 'B', landBoat "Ann" 10 'A']).1 2
      = [landBoat "Ann" 10 'A', landBoat "Zed" 10 'B'] ∧
    sortedByName
      (insertBoats (blankArray, 0) [landBoat "Zed" 10 'B', landBoat "Ann" 10 'A']).1
      (insertBoats (blankArray, 0) [landBoat "Zed" 10 'B', landBoat "Ann" 10 'A']).2 :=
  ⟨fun _ _ _ h => absurd h (Nat.not_lt_zero _), by decide, by decide,
   (insertBoat_preserves_order blankArray 0
      (fun _ _ _ h => absurd h (Nat.not_lt_zero _))).2 _⟩

theorem firstIndexWhere_unique {P : Nat → Prop} {count p q : Nat}
    (hp : firstIndexWhere P count p) (hq : firstIndexWhere P count q) : p = q := by
  obtain ⟨hp1, hp2, hp3⟩ := hp
  obtain ⟨hq1, hq2, hq3⟩ := hq
  rcases Nat.lt_trichotomy p q with h | h | h
  · exact absurd (hp3 (by omega)) (hq2 p h)
  · exact h
  · exact absurd (hq3 (by omega)) (hp2 q h)

theorem insertBoat_pos_first (boats : Nat → Boat) (count : Nat) (nb : Boat) :
    firstIndexWhere (fun i => strcasecmp (boats i).name nb.name ≥ 0) count
      (insertBoat_pos boats nb count 0) := by
  obtain ⟨-, hp2, hp3, hp4⟩ := insertBoat_pos_spec boats nb count 0
  refine ⟨by omega, ?_, ?_⟩
  · intro i hi
    have := hp3 i (Nat.zero_le _) hi
    rw [strcasecmp_swap (boats i).name nb.name] at this
    simp only [ge_iff_le, not_le]; omega
  · intro hlt
    have := hp4 (by omega)
    rw [strcasecmp_swap (boats _).name nb.name] at this
    simp only [ge_iff_le]; omega

/-- C2 (counterexample). The registry holds one boat, Ann, and a boat named ann is
inserted. No stored name is greater than the new name, so the first index with a greater
name is the end, index 1; but `insertBoat` stores the new boat at index 0, before the
existing boat of equal name, which moves to index 1. -/
theorem insertBoat_equal_name_counterexample :
    strcasecmp (oneAnn 0).name (landBoat "ann" 12 'B').name = 0 ∧
    firstIndexWhere
      (fun i => strcasecmp (oneAnn i).name (landBoat "ann" 12 'B').name > 0) 1 1 ∧
    (insertBoat oneAnn 1 (landBoat "ann" 12 'B')).1 1 ≠ landBoat "ann" 12 'B' ∧
    (insertBoat oneAnn 1 (landBoat "ann" 12 'B')).1 0 = landBoat "ann" 12 'B' ∧
    (insertBoat oneAnn 1 (landBoat "ann" 12 'B')).1 1 = oneAnn 0 := by
  refine ⟨by decide, ⟨le_refl _, ?_, fun h => absurd h (by decide)⟩, by decide, by decide,
    by decide⟩
  intro i hi
  have : i = 0 := by omega
  subst this
  decide

/-- C2 (amended). For a registry with `count < 120`, `insertBoat` stores the new boat at
the first index whose name is case-insensitively greater than or equal to the new name
(at index `count` if there is none); every existing boat whose name equals the new name
case-insensitively lies at or after that index and is moved one slot up, so it ends up
after the new boat. -/
theorem insertBoat_position (boats : Nat → Boat) (count : Nat) (nb : Boat)
    (h : count < MAX_BOATS) :
    ∃ pos, firstIndexWhere (fun i => strcasecmp (boats i).name nb.name ≥ 0) count pos ∧
      (insertBoat boats count nb).1 pos = nb ∧
      ∀ i, i < count → strcasecmp (boats i).name nb.name = 0 →
        pos < i + 1 ∧ (insertBoat boats count nb).1 (i + 1) = boats i := by
  have hf := insertBoat_pos_first boats count nb
  refine ⟨insertBoat_pos boats nb count 0, hf, ?_, ?_⟩
  · rw [insertBoat_apply boats count nb h]; simp
  · intro i hi h0
    have hpi : insertBoat_pos boats nb count 0 ≤ i := by
      by_contra hlt
      exact hf.2.1 i (by omega) (by simp only [ge_iff_le]; omega)
    refine ⟨by omega, ?_⟩
    rw [insertBoat_apply boats count nb h, if_neg (by omega), if_neg (by omega),
      if_pos (by omega)]
    rfl

/-- Witness for C2 (amended): the registry holding Ann, with ann inserted. -/
theorem insertBoat_position_witness :
    1 < MAX_BOATS ∧
    ∃ pos, firstIndexWhere
        (fun i => strcasecmp (oneAnn i).name (landBoat "ann" 12 'B').name ≥ 0) 1 pos ∧
      (insertBoat oneAnn 1 (landBoat "ann" 12 'B')).1 pos = landBoat "ann" 12 'B' ∧
      ∀ i, i < 1 → strcasecmp (oneAnn i).name (landBoat "ann" 12 'B').name = 0 →
        pos < i + 1 ∧ (insertBoat oneAnn 1 (landBoat "ann" 12 'B')).1 (i + 1) = oneAnn i :=
  ⟨by decide, insertBoat_position oneAnn 1 (landBoat "ann" 12 'B') (by decide)⟩

/-- C3. At capacity (`count ≥ 120`) `insertBoat` rejects the insert: it returns the same
count, and every slot of the array holds the record it held before. -/
theorem insertBoat_at_capacity (boats : Nat → Boat) (count : Nat) (nb : Boat)
    (h : count ≥ MAX_BOATS) :
    (insertBoat boats count nb).2 = count ∧
    (∀ k, (insertBoat boats count nb).1 k = boats k) ∧
    registry (insertBoat boats count nb).1 (insertBoat boats count nb).2
      = registry boats count := by
  rw [insertBoat_full boats count nb h]
  exact ⟨rfl, fun _ => rfl, rfl⟩

/-- Witness for C3: a full registry of 120 boats. -/
theorem insertBoat_at_capacity_witness :
    (120 : Nat) ≥ MAX_BOATS ∧
    (insertBoat blankArray 120 (landBoat "Ann" 10 'A')).2 = 120 ∧
    (∀ k, (insertBoat blankArray 120 (landBoat "Ann" 10 'A')).1 k = blankArray k) ∧
    registry (insertBoat blankArray 120 (landBoat "Ann" 10 'A')).1
        (insertBoat blankArray 120 (landBoat "Ann" 10 'A')).2
      = registry blankArray 120 :=
  ⟨by decide, insertBoat_at_capacity blankArray 120 (landBoat "Ann" 10 'A') (by decide)⟩

theorem findBoat_loop_spec (boats : Nat → Boat) (name : List Char) :
    ∀ (n i : Nat),
      (findBoat_loop boats name n i = -1 ∧
        ∀ j, i ≤ j → j < i + n → strcasecmp (boats j).name name ≠ 0) ∨
      (∃ k : Nat, findBoat_loop boats name n i = (k : Int) ∧ i ≤ k ∧ k < i + n ∧
        strcasecmp (boats k).name name = 0 ∧
        ∀ j, i ≤ j → j < k → strcasecmp (boats j).name name ≠ 0)
  | 0, i => Or.inl ⟨rfl, fun j h1 h2 => by omega⟩
  | n + 1, i => by
    simp only [findBoat_loop]
    split_ifs with h
    · exact Or.inr ⟨i, rfl, le_refl _, by omega, h, fun j h1 h2 => by omega⟩
    · rcases findBoat_loop_spec boats name n (i + 1) with ⟨h1, h2⟩ | ⟨k, h1, h2, h3, h4, h5⟩
      · refine Or.inl ⟨h1, fun j hj1 hj2 => ?_⟩
        by_cases hji : j = i
        · rw [hji]; exact h
        · exact h2 j (by omega) (by omega)
      · refine Or.inr ⟨k, h1, by omega, by omega, h4, fun j hj1 hj2 => ?_⟩
        by_cases hji : j = i
        · rw [hji]; exact h
        · exact h5 j (by omega) hj2

theorem findBoat_first_match_aux (boats : Nat → Boat) (count : Nat) (name : List Char) :
    findBoat boats count name = -1 ∨ ∃ i : Nat, findBoat boats count name = (i : Int) := by
  unfold findBoat
  rcases findBoat_loop_spec boats name count 0 with ⟨h1, -⟩ | ⟨k, h1, -⟩
  · exact Or.inl h1
  · exact Or.inr ⟨k, h1⟩

/-- C4. `findBoat` returns either `-1` or an index below `count`; it returns the index
`i` exactly when `i` is the smallest index below `count` whose stored name equals the
given name case-insensitively, and it returns `-1` exactly when none of the first
`count` stored names equals the given name case-insensitively. -/
theorem findBoat_first_match (boats : Nat → Boat) (count : Nat) (name : List Char) :
    (findBoat boats count name = -1 ∨
      ∃ i : Nat, findBoat boats count name = (i : Int) ∧ i < count) ∧
    (∀ i : Nat, findBoat boats count name = (i : Int) ↔
      (i < count ∧ sameNameIgnoringCase (boats i).name name ∧
        ∀ j, j < i → ¬ sameNameIgnoringCase (boats j).name name)) ∧
    (findBoat boats count name = -1 ↔
      ∀ j, j < count → ¬ sameNameIgnoringCase (boats j).name name) := by
  unfold findBoat
  simp only [← strcasecmp_eq_zero_iff]
  rcases findBoat_loop_spec boats name count 0 with ⟨h1, h2⟩ | ⟨k, h1, h2, h3, h4, h5⟩
  · rw [h1]
    refine ⟨Or.inl rfl, fun i => ⟨fun h => by omega, fun h => ?_⟩,
      ⟨fun _ j hj => h2 j (Nat.zero_le _) (by omega), fun _ => rfl⟩⟩
    exact absurd h.2.1 (h2 i (Nat.zero_le _) (by omega))
  · rw [h1]
    refine ⟨Or.inr ⟨k, rfl, by omega⟩, fun i => ⟨fun h => ?_, fun h => ?_⟩,
      ⟨fun h => by omega, fun h => absurd h4 (h k (by omega))⟩⟩
    · have hik : k = i := by exact_mod_cast h
      subst hik
      exact ⟨by omega, h4, fun j hj => h5 j (Nat.zero_le _) hj⟩
    · obtain ⟨hi1, hi2, hi3⟩ := h
      rcases Nat.lt_trichotomy k i with hlt | heq | hgt
      · exact absurd h4 (hi3 k hlt)
      · rw [heq]
      · exact absurd hi2 (h5 i (Nat.zero_le _) hgt)

theorem commaFields_eq (s : List Char) :
    commaFields s = s.takeWhile (fun c => c ≠ ',') ::
      (match s.dropWhile (fun c => c ≠ ',') with
        | [] => []
        | _ :: r => commaFields r) := by
  induction s with
  | nil => simp [commaFields]
  | cons c s ih =>
    by_cases hc : c = ','
    · subst hc
      simp [commaFields]
    · simp only [commaFields, if_neg hc]
      rw [ih]
      simp [hc]

theorem strtok_tokens (s : List Char) :
    (strtok s = none ∧ (commaFields s).filter (fun f => f ≠ []) = []) ∨
    (∃ t r, strtok s = some (t, r) ∧ t ≠ [] ∧
      (commaFields s).filter (fun f => f ≠ []) = t :: (commaFields r).filter (fun f => f ≠ [])) := by
  induction s with
  | nil => left; simp [strtok, commaFields]
  | cons c s ih =>
    by_cases hc : c = ','
    · subst hc
      have e1 : strtok (',' :: s) = strtok s := by simp [strtok]
      have e2 : (commaFields (',' :: s)).filter (fun f => f ≠ [])
          = (commaFields s).filter (fun f => f ≠ []) := by simp [commaFields]
      rw [e1, e2]; exact ih
    · right
      refine ⟨(c :: s).takeWhile (fun c => c ≠ ','),
        ((c :: s).dropWhile (fun c => c ≠ ',')).drop 1, ?_, ?_, ?_⟩
      · simp [strtok, hc]
      · simp [hc]
      · rw [commaFields_eq (c :: s)]
        have hne : (c :: s).takeWhile (fun c => c ≠ ',') ≠ [] := by simp [hc]
        rw [List.filter_cons_of_pos (by simpa using hne)]
        congr 1
        cases hd : (c :: s).dropWhile (fun c => c ≠ ',') with
        | nil => simp [commaFields]
        | cons d r => simp

theorem createBoatCSV_eq_tokens (line : List Char) :
    createBoatCSV line =
      match commaTokens line with
      | t1 :: t2 :: t3 :: t4 :: t5 :: _ =>
        (locationKeyword t3).map (boatOfTokens t1 t2 t4 t5)
      | _ => none := by
  unfold commaTokens
  rcases strtok_tokens (cstr line) with ⟨h1, e1⟩ | ⟨t1, r1, h1, -, e1⟩
  · rw [e1]; simp [createBoatCSV, h1]
  rcases strtok_tokens r1 with ⟨h2, e2⟩ | ⟨t2, r2, h2, -, e2⟩
  · rw [e1, e2]; simp [createBoatCSV, h1, h2]
  rcases strtok_tokens r2 with ⟨h3, e3⟩ | ⟨t3, r3, h3, -, e3⟩
  · rw [e1, e2, e3]; simp [createBoatCSV, h1, h2, h3]
  rcases strtok_tokens r3 with ⟨h4, e4⟩ | ⟨t4, r4, h4, -, e4⟩
  · rw [e1, e2, e3, e4]; simp [createBoatCSV, h1, h2, h3, h4]
  rcases strtok_tokens r4 with ⟨h5, e5⟩ | ⟨t5, r5, h5, -, e5⟩
  · rw [e1, e2, e3, e4, e5]; simp [createBoatCSV, h1, h2, h3, h4, h5]
  rw [e1, e2, e3, e4, e5]
  cases hk : locationKeyword t3 <;> simp [createBoatCSV, h1, h2, h3, h4, h5, hk, boatOfTokens]

theorem main_m_loop_in_apply (A : Arithmetic) :
    ∀ (n i : Nat) (boats : Nat → Boat) (k : Nat),
      main_m_loop_in A n i boats k =
        if i ≤ k ∧ k < i + n then
          { boats k with
            amount_owed :=
              A.plus (boats k).amount_owed
                (A.times (boats k).length (A.constant (monthlyRate (boats k).type))) }
        else boats k
  | 0, i, boats, k => by
    simp only [main_m_loop_in]
    rw [if_neg (by omega)]
  | n + 1, i, boats, k => by
    simp only [main_m_loop_in]
    rw [main_m_loop_in_apply A n (i + 1)]
    by_cases hk : k = i
    · subst hk
      rw [if_neg (by omega), if_pos (by omega), Function.update_same]
    · rw [Function.update_noteq hk]
      by_cases h : i + 1 ≤ k ∧ k < i + 1 + n
      · rw [if_pos h, if_pos (by omega)]
      · rw [if_neg h, if_neg (by omega)]

theorem main_m_loop_apply (n i : Nat) (boats : Nat → Boat) (k : Nat) :
    main_m_loop n i boats k =
      if i ≤ k ∧ k < i + n then
        { boats k with
          amount_owed :=
            (boats k).amount_owed + (boats k).length * monthlyRate (boats k).type }
      else boats k :=
  main_m_loop_in_apply exactArithmetic n i boats k

theorem main_m_double_apply (boats : Nat → Boat) (count k : Nat) :
    main_m_double boats count k =
      if k < count then
        { boats k with
          amount_owed :=
            fl ((boats k).amount_owed + fl ((boats k).length * fl (monthlyRate (boats k).type))) }
      else boats k := by
  unfold main_m_double
  rw [main_m_loop_in_apply]
  by_cases h : k < count
  · rw [if_pos h, if_pos (by omega)]
    rfl
  · rw [if_neg h, if_neg (by omega)]

theorem roundHalfEven_near (q : ℚ) (n : Int) (h : |q - n| < 1 / 2) : roundHalfEven q = n := by
  rw [abs_lt] at h
  unfold roundHalfEven
  by_cases hq : (n : ℚ) ≤ q
  · have hf : ⌊q⌋ = n := by
      rw [Int.floor_eq_iff]
      constructor
      · exact hq
      · linarith
    rw [hf, if_pos (by linarith)]
  · have hf : ⌊q⌋ = n - 1 := by
      rw [Int.floor_eq_iff]
      push_cast
      constructor <;> linarith
    rw [hf]
    push_cast
    rw [if_neg (by linarith), if_pos (by linarith)]
    ring

theorem roundHalfEven_tie (q : ℚ) (n : Int) (h : q = n + 1 / 2) :
    roundHalfEven q = if n % 2 = 0 then n else n + 1 := by
  have hf : ⌊q⌋ = n := by
    rw [Int.floor_eq_iff]
    constructor <;> linarith
  unfold roundHalfEven
  rw [hf, if_neg (by linarith), if_neg (by linarith)]

theorem binade_eq (q : ℚ) (k : Int) (hk : -1022 ≤ k) (h1 : (2 : ℚ) ^ k ≤ |q|)
    (h2 : |q| < (2 : ℚ) ^ (k + 1)) : binade q = k := by
  have hpos : (0 : ℚ) < |q| := lt_of_lt_of_le (by positivity) h1
  have hb : 1 < 2 := by decide
  have e1 : k ≤ Int.log 2 |q| := (Int.zpow_le_iff_le_log hb hpos).mp (by exact_mod_cast h1)
  have e2 : Int.log 2 |q| < k + 1 := (Int.lt_zpow_iff_log_lt hb hpos).mp (by exact_mod_cast h2)
  unfold binade
  omega

theorem fl_eq (q : ℚ) (k m : Int) (hk : -1022 ≤ k) (h1 : (2 : ℚ) ^ k ≤ |q|)
    (h2 : |q| < (2 : ℚ) ^ (k + 1)) (hm : roundHalfEven (q / 2 ^ (k - 52)) = m) :
    fl q = (m : ℚ) * 2 ^ (k - 52) := by
  unfold fl
  rw [binade_eq q k hk h1 h2, hm]

theorem fl_zero : fl 0 = 0 := by
  simp [fl, roundHalfEven]

theorem fl_slip_rate : fl SLIP_RATE = 25 / 2 := by
  have e : SLIP_RATE = 25 / 2 := by unfold SLIP_RATE; norm_num
  rw [e, fl_eq (25 / 2) 3 7036874417766400 (by norm_num) (by norm_num [abs_of_pos])
    (by norm_num [abs_of_pos]) (roundHalfEven_near _ _ (by norm_num [abs_lt]))]
  norm_num

theorem fl_land_rate : fl LAND_RATE = 14 := by
  have e : LAND_RATE = 14 := by unfold LAND_RATE; norm_num
  rw [e, fl_eq 14 3 7881299347898368 (by norm_num) (by norm_num [abs_of_pos])
    (by norm_num [abs_of_pos]) (roundHalfEven_near _ _ (by norm_num [abs_lt]))]
  norm_num

theorem fl_trailor_rate : fl TRAILOR_RATE = 25 := by
  have e : TRAILOR_RATE = 25 := by unfold TRAILOR_RATE; norm_num
  rw [e, fl_eq 25 4 7036874417766400 (by norm_num) (by norm_num [abs_of_pos])
    (by norm_num [abs_of_pos]) (roundHalfEven_near _ _ (by norm_num [abs_lt]))]
  norm_num

theorem fl_storage_rate : fl STORAGE_RATE = 6305039478318694 / 2 ^ 49 := by
  have e : STORAGE_RATE = 56 / 5 := by unfold STORAGE_RATE; norm_num
  rw [e, fl_eq (56 / 5) 3 6305039478318694 (by norm_num) (by norm_num [abs_of_pos])
    (by norm_num [abs_of_pos]) (roundHalfEven_near _ _ (by norm_num [abs_lt]))]
  norm_num

theorem fl_hundredth : fl (1 / 100) = 5764607523034235 / 2 ^ 59 := by
  rw [fl_eq (1 / 100) (-7) 5764607523034235 (by norm_num) (by norm_num [abs_of_pos])
    (by norm_num [abs_of_pos]) (roundHalfEven_near _ _ (by norm_num [abs_lt]))]
  norm_num

theorem barge_one_month :
    (main_m_double (Function.update blankArray 0 barge) 1 0).amount_owed =
      4728779608739020 / 2 ^ 47 := by
  rw [main_m_double_apply, if_pos (by decide)]
  simp only [Function.update_same, barge, monthlyRate, fl_storage_rate]
  have hp : fl (((3 : Int) : ℚ) * (6305039478318694 / 2 ^ 49)) = 4728779608739020 / 2 ^ 47 := by
    rw [fl_eq _ 5 4728779608739020 (by norm_num) (by norm_num [abs_of_pos])
      (by norm_num [abs_of_pos])
      (by rw [roundHalfEven_tie _ 4728779608739020 (by norm_num)]; decide)]
    norm_num
  rw [hp, zero_add]
  rw [fl_eq _ 5 4728779608739020 (by norm_num) (by norm_num [abs_of_pos])
    (by norm_num [abs_of_pos]) (roundHalfEven_near _ _ (by norm_num [abs_lt]))]
  norm_num

theorem skiff_two_months :
    (main_m_double (main_m_double (Function.update blankArray 0 skiff) 1) 1 0).amount_owed =
      7039689167533506 / 2 ^ 48 := by
  have hc : fl (((1 : Int) : ℚ) * (25 / 2)) = 25 / 2 := by
    rw [fl_eq _ 3 7036874417766400 (by norm_num) (by norm_num [abs_of_pos])
      (by norm_num [abs_of_pos]) (roundHalfEven_near _ _ (by norm_num [abs_lt]))]
    norm_num
  have h1 : fl (5764607523034235 / 2 ^ 59 + 25 / 2) = 7042503917300613 / 2 ^ 49 := by
    rw [fl_eq _ 3 7042503917300613 (by norm_num) (by norm_num [abs_of_pos])
      (by norm_num [abs_of_pos]) (roundHalfEven_near _ _ (by norm_num [abs_lt]))]
    norm_num
  have h2 : fl (7042503917300613 / 2 ^ 49 + 25 / 2) = 7039689167533506 / 2 ^ 48 := by
    rw [fl_eq _ 4 7039689167533506 (by norm_num) (by norm_num [abs_of_pos])
      (by norm_num [abs_of_pos])
      (by rw [roundHalfEven_tie _ 7039689167533506 (by norm_num)]; decide)]
    norm_num
  rw [main_m_double_apply, if_pos (by decide)]
  simp only [main_m_double_apply, if_pos (show 0 < 1 by decide), Function.update_same, skiff,
    monthlyRate, fl_slip_rate, hc, h1, h2]

/-- C6 (counterexample). Amounts are of type `double`. A boat of 3 ft in storage owing 0
owes after one month 33.599999999999994..., which is neither `3 * 11.20` nor the `double`
nearest to it. A boat of 1 ft in a slip owing 0.01 (the `double` nearest to it) owes after
two months 25.009999999999998..., which is neither the original plus `2 * 1 * 12.50` nor
the `double` nearest to that. -/
theorem main_m_rounding_counterexample :
    (main_m_double (Function.update blankArray 0 barge) 1 0).amount_owed =
      4728779608739020 / 2 ^ 47 ∧
    (main_m_double (Function.update blankArray 0 barge) 1 0).amount_owed ≠
      barge.amount_owed + barge.length * 11.20 ∧
    (main_m_double (Function.update blankArray 0 barge) 1 0).amount_owed ≠
      fl (barge.amount_owed + barge.length * 11.20) ∧
    skiff.amount_owed = fl (1 / 100) ∧
    (main_m_double (main_m_double (Function.update blankArray 0 skiff) 1) 1 0).amount_owed =
      7039689167533506 / 2 ^ 48 ∧
    (main_m_double (main_m_double (Function.update blankArray 0 skiff) 1) 1 0).amount_owed ≠
      skiff.amount_owed + 2 * skiff.length * 12.50 ∧
    (main_m_double (main_m_double (Function.update blankArray 0 skiff) 1) 1 0).amount_owed ≠
      fl (skiff.amount_owed + 2 * skiff.length * 12.50) := by
  have hb : fl (barge.amount_owed + barge.length * 11.20) = 4728779608739021 / 2 ^ 47 := by
    have e : barge.amount_owed + (barge.length : ℚ) * 11.20 = 168 / 5 := by
      simp only [barge]; norm_num
    rw [e, fl_eq _ 5 4728779608739021 (by norm_num) (by norm_num [abs_of_pos])
      (by norm_num [abs_of_pos]) (roundHalfEven_near _ _ (by norm_num [abs_lt]))]
    norm_num
  have hs : fl (skiff.amount_owed + 2 * skiff.length * 12.50) = 7039689167533507 / 2 ^ 48 := by
    have e : skiff.amount_owed + 2 * (skiff.length : ℚ) * 12.50 =
        5764607523034235 / 2 ^ 59 + 25 := by
      simp only [skiff]; norm_num
    rw [e, fl_eq _ 4 7039689167533507 (by norm_num) (by norm_num [abs_of_pos])
      (by norm_num [abs_of_pos]) (roundHalfEven_near _ _ (by norm_num [abs_lt]))]
    norm_num
  refine ⟨barge_one_month, ?_, ?_, ?_, skiff_two_months, ?_, ?_⟩
  · rw [barge_one_month]; simp only [barge]; norm_num
  · rw [barge_one_month, hb]; norm_num
  · rw [fl_hundredth]; rfl
  · rw [skiff_two_months]; simp only [skiff]; norm_num
  · rw [skiff_two_months, hs]; norm_num

/-- C6 (amended). Monthly charge step of the command `m` in `double` arithmetic: every one
of the first `count` boats gets as amount owed the rounded sum of its amount owed and the
rounded product of its length and its rate, the rate being the `double` nearest to 12.50
for slip, 14.00 for land, 25.00 for trailor and 11.20 for storage (the first three are
exact, the last is not); no other field, no slot from `count` on, and so neither count nor
order, changes; two applications give the rounded sum taken twice, which is the original
plus `2 * length * rate` whenever the rate, the product and the two sums are exact. -/
theorem main_m_double_charge (boats : Nat → Boat) (count : Nat) :
    (∀ i, i < count →
      main_m_double boats count i =
        { boats i with
          amount_owed :=
            fl ((boats i).amount_owed +
              fl ((boats i).length * fl (monthlyRate (boats i).type))) }) ∧
    (fl (monthlyRate LocationType.slip) = 12.50 ∧ fl (monthlyRate LocationType.land) = 14.00 ∧
      fl (monthlyRate LocationType.trailor) = 25.00 ∧
      fl (monthlyRate LocationType.storage) = 6305039478318694 / 2 ^ 49 ∧
      monthlyRate LocationType.storage = 11.20 ∧
      fl (monthlyRate LocationType.storage) ≠ 11.20) ∧
    (∀ i, (main_m_double boats count i).name = (boats i).name ∧
      (main_m_double boats count i).length = (boats i).length ∧
      (main_m_double boats count i).type = (boats i).type ∧
      (main_m_double boats count i).info = (boats i).info) ∧
    (∀ i, count ≤ i → main_m_double boats count i = boats i) ∧
    (∀ i, i < count →
      (main_m_double (main_m_double boats count) count i).amount_owed =
        fl (fl ((boats i).amount_owed +
              fl ((boats i).length * fl (monthlyRate (boats i).type))) +
          fl ((boats i).length * fl (monthlyRate (boats i).type)))) ∧
    (∀ i, i < count →
      fl (monthlyRate (boats i).type) = monthlyRate (boats i).type →
      fl ((boats i).length * monthlyRate (boats i).type) =
        (boats i).length * monthlyRate (boats i).type →
      fl ((boats i).amount_owed + (boats i).length * monthlyRate (boats i).type) =
        (boats i).amount_owed + (boats i).length * monthlyRate (boats i).type →
      fl ((boats i).amount_owed + (boats i).length * monthlyRate (boats i).type +
          (boats i).length * monthlyRate (boats i).type) =
        (boats i).amount_owed + 2 * (boats i).length * monthlyRate (boats i).type →
      (main_m_double boats count i).amount_owed =
        (boats i).amount_owed + (boats i).length * monthlyRate (boats i).type ∧
      (main_m_double (main_m_double boats count) count i).amount_owed =
        (boats i).amount_owed + 2 * (boats i).length * monthlyRate (boats i).type) := by
  have htwice : ∀ i, i < count →
      (main_m_double (main_m_double boats count) count i).amount_owed =
        fl (fl ((boats i).amount_owed +
              fl ((boats i).length * fl (monthlyRate (boats i).type))) +
          fl ((boats i).length * fl (monthlyRate (boats i).type))) := by
    intro i hi
    rw [main_m_double_apply (main_m_double boats count) count i, if_pos hi,
      main_m_double_apply boats count i, if_pos hi]
  refine ⟨fun i hi => by rw [main_m_double_apply, if_pos hi], ?_, fun i => ?_,
    fun i hi => by rw [main_m_double_apply, if_neg (by omega)], htwice, ?_⟩
  · refine ⟨?_, ?_, ?_, fl_storage_rate, ?_, ?_⟩
    · rw [show monthlyRate LocationType.slip = SLIP_RATE from rfl, fl_slip_rate]; norm_num
    · rw [show monthlyRate LocationType.land = LAND_RATE from rfl, fl_land_rate]; norm_num
    · rw [show monthlyRate LocationType.trailor = TRAILOR_RATE from rfl, fl_trailor_rate]
      norm_num
    · rfl
    · rw [show monthlyRate LocationType.storage = STORAGE_RATE from rfl, fl_storage_rate]
      norm_num
  · rw [main_m_double_apply]
    split_ifs <;> exact ⟨rfl, rfl, rfl, rfl⟩
  · intro i hi hr hprod hsum1 hsum2
    constructor
    · rw [main_m_double_apply, if_pos hi]
      simp only [hr, hprod, hsum1]
    · rw [htwice i hi, hr, hprod, hsum1, hsum2]

/-- Example for C6 (amended): for Eleanor, 28 ft, slip, owing 1200.50, no operation rounds:
she owes 1550.50 after one month and 1900.50 after two. -/
theorem main_m_double_eleanor :
    (main_m_double oneEleanor 1 0).amount_owed = 1550.50 ∧
    (main_m_double (main_m_double oneEleanor 1) 1 0).amount_owed = 1900.50 := by
  have hE : oneEleanor 0 = eleanor := by simp [oneEleanor]
  have hr : fl (monthlyRate (oneEleanor 0).type) = monthlyRate (oneEleanor 0).type := by
    rw [hE]
    rw [show monthlyRate eleanor.type = SLIP_RATE from rfl, fl_slip_rate]
    unfold SLIP_RATE; norm_num
  have hl : ((oneEleanor 0).length : ℚ) * monthlyRate (oneEleanor 0).type = 350 := by
    rw [hE]
    simp only [eleanor, monthlyRate, SLIP_RATE]; norm_num
  have ha : (oneEleanor 0).amount_owed = 2401 / 2 := by
    rw [hE]; simp only [eleanor]; norm_num
  have h := (main_m_double_charge oneEleanor 1).2.2.2.2.2 0 (by decide) hr
    (by
      rw [hl, fl_eq 350 8 6157265115545600 (by norm_num) (by norm_num [abs_of_pos])
        (by norm_num [abs_of_pos]) (roundHalfEven_near _ _ (by norm_num [abs_lt]))]
      norm_num)
    (by
      rw [hl, ha, fl_eq _ 10 6819171115466752 (by norm_num) (by norm_num [abs_of_pos])
        (by norm_num [abs_of_pos]) (roundHalfEven_near _ _ (by norm_num [abs_lt]))]
      norm_num)
    (by
      have e2 : (oneEleanor 0).amount_owed +
          2 * ((oneEleanor 0).length : ℚ) * monthlyRate (oneEleanor 0).type = 3801 / 2 := by
        rw [ha, mul_assoc, hl]; norm_num
      rw [e2, hl, ha, fl_eq _ 10 8358487394353152 (by norm_num) (by norm_num [abs_of_pos])
        (by norm_num [abs_of_pos]) (roundHalfEven_near _ _ (by norm_num [abs_lt]))]
      norm_num)
  rw [h.1, h.2]
  constructor
  · rw [ha, hl]; norm_num
  · rw [ha]
    have : (2 : ℚ) * ((oneEleanor 0).length : ℚ) * monthlyRate (oneEleanor 0).type = 700 := by
      rw [mul_assoc, hl]; norm_num
    rw [this]; norm_num

theorem locationKeyword_eq_none {t : List Char} (h : t ∉ locationKeywords) :
    locationKeyword t = none := by
  simp only [locationKeywords, List.mem_cons, List.mem_singleton, not_or] at h
  unfold locationKeyword
  rw [if_neg h.1, if_neg h.2.1, if_neg h.2.2.1, if_neg (by simpa using h.2.2.2)]

theorem locationKeyword_isSome {t : List Char} (h : t ∈ locationKeywords) :
    ∃ ty, locationKeyword t = some ty := by
  simp only [locationKeywords, List.mem_cons, List.mem_singleton, List.mem_nil_iff,
    or_false] at h
  rcases h with h | h | h | h <;> subst h
  · exact ⟨LocationType.slip, by decide⟩
  · exact ⟨LocationType.land, by decide⟩
  · exact ⟨LocationType.trailor, by decide⟩
  · exact ⟨LocationType.storage, by decide⟩

theorem atoi_startsNonNumeric {t : List Char} (h : startsNonNumeric t) : atoi t = 0 := by
  obtain ⟨c, r, rfl, h1, h2, h3⟩ := h
  simp only [List.mem_cons, not_or] at h3
  have hr : decimalRead (c :: r) = 0 := by
    simp [decimalRead, List.dropWhile_cons, h1, h2, h3.1, h3.2.1, List.takeWhile_cons,
      decimalValue]
  unfold atoi strtol
  rw [hr]
  decide

theorem atof_startsNonNumeric {t : List Char} (h : startsNonNumeric t) : atof t = 0 := by
  obtain ⟨c, r, rfl, h1, h2, h3⟩ := h
  simp only [List.mem_cons, not_or] at h3
  have hc : c ≠ '.' := h3.2.2.1
  simp [atof, atof_unsigned, List.dropWhile_cons, h1, h2, h3.1, h3.2.1, List.takeWhile_cons, hc]

/-- C8 (counterexample). The line `a,,1,slip,2,3` has six comma-separated fields; the
second (the length) is empty and the third, `1`, is no location keyword. `strtok` skips
the empty field, so `createBoatCSV` returns a boat: a, length 1, slip 2, amount 3. -/
theorem createBoatCSV_empty_field_counterexample :
    commaFields "a,,1,slip,2,3".toList =
      ["a".toList, [], "1".toList, "slip".toList, "2".toList, "3".toList] ∧
    "1".toList ∉ locationKeywords ∧
    createBoatCSV "a,,1,slip,2,3".toList =
      some { name := "a".toList, length := 1, type := LocationType.slip,
             info := LocationInfo.slip_number 2, amount_owed := 3 } := by
  refine ⟨by decide, by decide, ?_⟩
  rw [createBoatCSV_eq_tokens]
  have ht : commaTokens "a,,1,slip,2,3".toList =
      ["a".toList, "1".toList, "slip".toList, "2".toList, "3".toList] := by decide
  have hk : locationKeyword "slip".toList = some LocationType.slip := by decide
  have h2 : atoi "1".toList = 1 := by decide
  have h4 : locationValue LocationType.slip "2".toList = LocationInfo.slip_number 2 := by
    decide
  have h5 : atof "3".toList = 3 := by
    simp [atof, atof_unsigned, atof_exponent, decimalValue, digitValue, isdigit, isspace]
  rw [ht]
  simp only [hk, Option.map, boatOfTokens, h2, h4, h5]
  rfl

/-- C8 (amended). Fields are the non-empty tokens between commas. If a line has fewer
than five non-empty tokens, or its third non-empty token is not exactly one of `slip`,
`land`, `trailor`, `storage`, then `createBoatCSV` returns no boat. -/
theorem createBoatCSV_rejects (line : List Char)
    (h : (commaTokens line).length < 5 ∨
      ∀ t3, (commaTokens line).get? 2 = some t3 → t3 ∉ locationKeywords) :
    createBoatCSV line = none := by
  rw [createBoatCSV_eq_tokens]
  rcases hl : commaTokens line with _ | ⟨t1, _ | ⟨t2, _ | ⟨t3, _ | ⟨t4, _ | ⟨t5, rest⟩⟩⟩⟩⟩
  all_goals try rfl
  rw [hl] at h
  rcases h with h | h
  · simp only [List.length_cons] at h
    omega
  · have := locationKeyword_eq_none (h t3 rfl)
    simp [this]

/-- Witness for C8 (amended): a line with four fields, and a line whose third field is
`boat`. -/
theorem createBoatCSV_rejects_witness :
    (commaTokens "Eleanor,28,slip,23".toList).length < 5 ∧
    createBoatCSV "Eleanor,28,slip,23".toList = none ∧
    createBoatCSV "Eleanor,28,boat,23,1200.50".toList = none :=
  ⟨by decide,
   createBoatCSV_rejects "Eleanor,28,slip,23".toList (Or.inl (by decide)),
   createBoatCSV_rejects "Eleanor,28,boat,23,1200.50".toList
     (Or.inr (fun t3 h => by
       have : t3 = "boat".toList := by
         have h0 : (commaTokens "Eleanor,28,boat,23,1200.50".toList).get? 2
             = some "boat".toList := by decide
         rw [h0] at h
         exact (Option.some.inj h).symm
       subst this
       decide))⟩

/-- C9 (counterexample). Both example lines are accepted: `abc` is read as length 0 and
`xyz` as amount 0. -/
theorem createBoatCSV_non_numeric_counterexample :
    createBoatCSV "Eleanor,abc,slip,23,1200.50".toList =
      some { name := "Eleanor".toList, length := 0, type := LocationType.slip,
             info := LocationInfo.slip_number 23, amount_owed := 1200.50 } ∧
    createBoatCSV "Eleanor,28,slip,23,xyz".toList =
      some { name := "Eleanor".toList, length := 28, type := LocationType.slip,
             info := LocationInfo.slip_number 23, amount_owed := 0 } := by
  have hk : locationKeyword "slip".toList = some LocationType.slip := by decide
  have h4 : locationValue LocationType.slip "23".toList = LocationInfo.slip_number 23 := by
    decide
  constructor
  · rw [createBoatCSV_eq_tokens]
    have ht : commaTokens "Eleanor,abc,slip,23,1200.50".toList =
        ["Eleanor".toList, "abc".toList, "slip".toList, "23".toList, "1200.50".toList] := by
      decide
    have h2 : atoi "abc".toList = 0 := by decide
    have h5 : atof "1200.50".toList = 1200.50 := by
      simp [atof, atof_unsigned, atof_exponent, decimalValue, digitValue, isdigit, isspace]
      norm_num
    rw [ht]
    simp only [hk, Option.map, boatOfTokens, h2, h4, h5]
    rfl
  · rw [createBoatCSV_eq_tokens]
    have ht : commaTokens "Eleanor,28,slip,23,xyz".toList =
        ["Eleanor".toList, "28".toList, "slip".toList, "23".toList, "xyz".toList] := by
      decide
    have h2 : atoi "28".toList = 28 := by decide
    have h5 : atof "xyz".toList = 0 := by
      simp [atof, atof_unsigned, atof_exponent, decimalValue, digitValue, isdigit, isspace]
    rw [ht]
    simp only [hk, Option.map, boatOfTokens, h2, h4, h5]
    rfl

/-- C9 (amended). Text that is not numeric in the length or amount field does not make
`createBoatCSV` fail: whenever the line has at least five non-empty tokens and the third
is a location keyword, a boat is returned whose length is `atoi` of the second token and
whose amount owed is `atof` of the fifth; either is 0 when its token starts with a
character that cannot begin a number. -/
theorem createBoatCSV_reads_zero (line t1 t2 t3 t4 t5 : List Char)
    (rest : List (List Char))
    (htok : commaTokens line = t1 :: t2 :: t3 :: t4 :: t5 :: rest)
    (hkw : t3 ∈ locationKeywords) :
    ∃ b, createBoatCSV line = some b ∧ b.length = atoi t2 ∧ b.amount_owed = atof t5 ∧
      (startsNonNumeric t2 → b.length = 0) ∧
      (startsNonNumeric t5 → b.amount_owed = 0) := by
  obtain ⟨ty, hty⟩ := locationKeyword_isSome hkw
  refine ⟨boatOfTokens t1 t2 t4 t5 ty, ?_, rfl, rfl, fun h => atoi_startsNonNumeric h,
    fun h => atof_startsNonNumeric h⟩
  rw [createBoatCSV_eq_tokens, htok]
  simp [hty]

/-- Witness for C9 (amended): the line `Eleanor,abc,slip,23,xyz`. -/
theorem createBoatCSV_reads_zero_witness :
    commaTokens "Eleanor,abc,slip,23,xyz".toList =
      ["Eleanor".toList, "abc".toList, "slip".toList, "23".toList, "xyz".toList] ∧
    "slip".toList ∈ locationKeywords ∧
    ∃ b, createBoatCSV "Eleanor,abc,slip,23,xyz".toList = some b ∧
      b.length = atoi "abc".toList ∧ b.amount_owed = atof "xyz".toList ∧
      (startsNonNumeric "abc".toList → b.length = 0) ∧
      (startsNonNumeric "xyz".toList → b.amount_owed = 0) :=
  ⟨by decide, by decide,
   createBoatCSV_reads_zero "Eleanor,abc,slip,23,xyz".toList "Eleanor".toList "abc".toList
     "slip".toList "23".toList "xyz".toList [] (by decide) (by decide)⟩

theorem digitChar_toNat {d : Nat} (h : d < 10) : (digitChar d).toNat = 48 + d := by
  interval_cases d <;> rfl

theorem isdigit_digitChar {d : Nat} (h : d < 10) : isdigit (digitChar d) = true := by
  simp [isdigit, digitChar_toNat h]
  omega

theorem digitValue_digitChar {d : Nat} (h : d < 10) : digitValue (digitChar d) = d := by
  simp [digitValue, digitChar_toNat h]

theorem decimalValue_foldl (b : List Char) : ∀ acc : Nat,
    b.foldl (fun acc c => 10 * acc + digitValue c) acc =
      acc * 10 ^ b.length + b.foldl (fun acc c => 10 * acc + digitValue c) 0 := by
  induction b with
  | nil => intro acc; simp
  | cons c b ih =>
    intro acc
    simp only [List.foldl_cons, List.length_cons]
    rw [ih (10 * acc + digitValue c), ih (10 * 0 + digitValue c)]
    ring

theorem decimalValue_append (a b : List Char) :
    decimalValue (a ++ b) = decimalValue a * 10 ^ b.length + decimalValue b := by
  unfold decimalValue
  rw [List.foldl_append, decimalValue_foldl]

theorem decimalValue_eq_digitsNumber (ds : List Char) : decimalValue ds = digitsNumber ds := by
  induction ds using List.reverseRecOn with
  | nil => simp [decimalValue, digitsNumber]
  | append_singleton ds c ih =>
    rw [decimalValue_append, ih]
    simp [digitsNumber, decimalValue, Nat.ofDigits_cons]
    ring

theorem natDigits_spec : ∀ (f n : Nat), n < f →
    isDigits (natDigits f n) ∧ decimalValue (natDigits f n) = n
  | 0, n, h => by omega
  | f + 1, n, h => by
    simp only [natDigits]
    split_ifs with h10
    · refine ⟨⟨by simp, fun c hc => ?_⟩, ?_⟩
      · simp only [List.mem_singleton] at hc
        rw [hc]; exact isdigit_digitChar h10
      · simp [decimalValue, digitValue_digitChar h10]
    · obtain ⟨⟨-, h2⟩, h3⟩ := natDigits_spec f (n / 10) (by omega)
      have hm : n % 10 < 10 := Nat.mod_lt _ (by decide)
      refine ⟨⟨by simp, fun c hc => ?_⟩, ?_⟩
      · simp only [List.mem_append, List.mem_singleton] at hc
        rcases hc with hc | hc
        · exact h2 c hc
        · rw [hc]; exact isdigit_digitChar hm
      · rw [decimalValue_append, h3]
        simp [decimalValue, digitValue_digitChar hm]
        omega

theorem isdigit_facts {c : Char} (h : isdigit c = true) :
    isspace c = false ∧ c ≠ '-' ∧ c ≠ '+' ∧ c ≠ ',' ∧ c ≠ NUL ∧ c ≠ '.' := by
  simp only [isdigit, Bool.and_eq_true, decide_eq_true_eq] at h
  refine ⟨?_, ?_, ?_, ?_, ?_, ?_⟩
  · simp only [isspace, Bool.or_eq_false_iff, decide_eq_false_iff_not, Bool.and_eq_false_imp,
      decide_eq_true_eq]
    refine ⟨?_, fun _ => by omega⟩
    rintro rfl
    revert h; decide
  all_goals
    rintro rfl
    revert h; decide

theorem takeWhile_isdigit_digits {ds : List Char} (h : ∀ c ∈ ds, isdigit c = true) :
    ds.takeWhile isdigit = ds :=
  List.takeWhile_eq_self_iff.mpr h

theorem decimalRead_decimalInteger {s : List Char} {n : Int} (h : decimalInteger s n) :
    decimalRead s = n := by
  obtain ⟨ds, ⟨hne, hd⟩, h⟩ := h
  obtain ⟨c, r, rfl⟩ := List.exists_cons_of_ne_nil hne
  have hc := isdigit_facts (hd c (List.mem_cons_self _ _))
  have htw := takeWhile_isdigit_digits hd
  rcases h with ⟨rfl, rfl⟩ | ⟨rfl, rfl⟩ | ⟨rfl, rfl⟩
  · simp only [decimalRead, List.dropWhile_cons, hc.1, Bool.false_eq_true, if_false,
      if_neg hc.2.1, if_neg hc.2.2.1, htw, decimalValue_eq_digitsNumber]
  · have : isspace '+' = false := by decide
    simp [decimalRead, List.dropWhile_cons, this, htw, decimalValue_eq_digitsNumber]
  · have : isspace '-' = false := by decide
    simp [decimalRead, List.dropWhile_cons, this, htw, decimalValue_eq_digitsNumber]

theorem toInt_of_isInt {n : Int} (h : isInt n) : toInt n = n := by
  unfold isInt at h
  unfold toInt
  omega

theorem atoi_of_isInt {s : List Char} {n : Int} (hr : decimalRead s = n) (h : isInt n) :
    atoi s = n := by
  unfold atoi strtol LONG_MIN LONG_MAX
  rw [hr]
  have h' := h
  unfold isInt at h'
  have e : max (-9223372036854775808 : Int) (min n 9223372036854775807) = n := by
    rw [min_eq_left (by omega), max_eq_right (by omega)]
  rw [e]
  exact toInt_of_isInt h

theorem atoi_decimalInteger {s : List Char} {n : Int} (h : decimalInteger s n)
    (hn : isInt n) : atoi s = n :=
  atoi_of_isInt (decimalRead_decimalInteger h) hn

theorem atof_unsigned_body {ip fp body : List Char} (hip : isDigits ip)
    (hfp : ∀ c ∈ fp, isdigit c = true)
    (hb : (body = ip ∧ fp = []) ∨ body = ip ++ '.' :: fp) :
    atof_unsigned body = (digitsNumber ip : ℚ) + (digitsNumber fp : ℚ) / 10 ^ fp.length := by
  have hpt : isdigit '.' = false := by decide
  have hipne : ip ≠ [] := hip.1
  rcases hb with ⟨rfl, rfl⟩ | rfl
  · have h1 : body.takeWhile isdigit = body := takeWhile_isdigit_digits hip.2
    have h2 : body.dropWhile isdigit = [] := List.dropWhile_eq_nil_iff.mpr hip.2
    simp [atof_unsigned, h1, h2, hipne, atof_exponent, decimalValue_eq_digitsNumber,
      digitsNumber]
  · have h1 : (ip ++ '.' :: fp).takeWhile isdigit = ip := by
      rw [List.takeWhile_append_of_pos hip.2, List.takeWhile_cons_of_neg (by simp [hpt])]
      simp
    have h2 : (ip ++ '.' :: fp).dropWhile isdigit = '.' :: fp := by
      rw [List.dropWhile_append_of_pos hip.2, List.dropWhile_cons_of_neg (by simp [hpt])]
    have h3 : fp.takeWhile isdigit = fp := takeWhile_isdigit_digits hfp
    have h4 : fp.dropWhile isdigit = [] := List.dropWhile_eq_nil_iff.mpr hfp
    simp only [atof_unsigned, h1, h2, List.head?_cons, if_true, List.tail_cons, h3, h4,
      atof_exponent, zpow_zero, mul_one]
    rw [if_neg (by simp [hipne]), decimalValue_append, ← decimalValue_eq_digitsNumber,
      ← decimalValue_eq_digitsNumber]
    push_cast
    field_simp

theorem atof_decimalAmount {s : List Char} {q : ℚ} (h : decimalAmount s q) : atof s = q := by
  obtain ⟨ip, fp, hip, hfp, body, hb, h⟩ := h
  have hbody := atof_unsigned_body hip hfp hb
  obtain ⟨c, r, hcr⟩ := List.exists_cons_of_ne_nil hip.1
  have hc := isdigit_facts (hip.2 c (by rw [hcr]; exact List.mem_cons_self _ _))
  have hbc : ∃ r', body = c :: r' := by
    rcases hb with ⟨rfl, -⟩ | rfl
    · exact ⟨r, hcr⟩
    · exact ⟨r ++ '.' :: fp, by rw [hcr]; rfl⟩
  obtain ⟨r', hr'⟩ := hbc
  rcases h with ⟨rfl, rfl⟩ | ⟨rfl, rfl⟩ | ⟨rfl, rfl⟩
  · rw [← hbody, hr']
    simp only [atof, List.dropWhile_cons, hc.1, Bool.false_eq_true, if_false, if_neg hc.2.1,
      if_neg hc.2.2.1]
  · have : isspace '+' = false := by decide
    rw [← hbody]
    simp [atof, List.dropWhile_cons, this]
  · have : isspace '-' = false := by decide
    rw [← hbody]
    simp [atof, List.dropWhile_cons, this]

theorem isField_of_digits_like {s : List Char} (hne : s ≠ [])
    (h : ∀ c ∈ s, isdigit c = true ∨ c = '+' ∨ c = '-' ∨ c = '.') : isField s := by
  refine ⟨hne, fun hm => ?_, fun hm => ?_⟩
  · rcases h _ hm with h | h | h | h
    · exact (isdigit_facts h).2.2.2.1 rfl
    all_goals revert h; decide
  · rcases h _ hm with h | h | h | h
    · exact (isdigit_facts h).2.2.2.2.1 rfl
    all_goals revert h; decide

theorem isField_decimalInteger {s : List Char} {n : Int} (h : decimalInteger s n) :
    isField s := by
  obtain ⟨ds, ⟨hne, hd⟩, h⟩ := h
  rcases h with ⟨rfl, -⟩ | ⟨rfl, -⟩ | ⟨rfl, -⟩
  · exact isField_of_digits_like hne (fun c hc => Or.inl (hd c hc))
  · refine isField_of_digits_like (by simp) (fun c hc => ?_)
    rcases List.mem_cons.mp hc with h | h
    · exact Or.inr (Or.inl h)
    · exact Or.inl (hd c h)
  · refine isField_of_digits_like (by simp) (fun c hc => ?_)
    rcases List.mem_cons.mp hc with h | h
    · exact Or.inr (Or.inr (Or.inl h))
    · exact Or.inl (hd c h)

theorem isField_decimalAmount {s : List Char} {q : ℚ} (h : decimalAmount s q) :
    isField s := by
  obtain ⟨ip, fp, hip, hfp, body, hb, h⟩ := h
  have hbody : ∀ c ∈ body, isdigit c = true ∨ c = '+' ∨ c = '-' ∨ c = '.' := by
    intro c hc
    rcases hb with ⟨rfl, -⟩ | rfl
    · exact Or.inl (hip.2 c hc)
    · rcases List.mem_append.mp hc with h1 | h1
      · exact Or.inl (hip.2 c h1)
      · rcases List.mem_cons.mp h1 with h2 | h2
        · exact Or.inr (Or.inr (Or.inr h2))
        · exact Or.inl (hfp c h2)
  have hbne : body ≠ [] := by
    rcases hb with ⟨rfl, -⟩ | rfl
    · exact hip.1
    · simp
  rcases h with ⟨rfl, -⟩ | ⟨rfl, -⟩ | ⟨rfl, -⟩
  · exact isField_of_digits_like hbne hbody
  · refine isField_of_digits_like (by simp) (fun c hc => ?_)
    rcases List.mem_cons.mp hc with h | h
    · exact Or.inr (Or.inl h)
    · exact hbody c h
  · refine isField_of_digits_like (by simp) (fun c hc => ?_)
    rcases List.mem_cons.mp hc with h | h
    · exact Or.inr (Or.inr (Or.inl h))
    · exact hbody c h

theorem isField_keyword {t : List Char} (h : t ∈ locationKeywords) : isField t := by
  simp only [locationKeywords, List.mem_cons, List.mem_singleton, List.mem_nil_iff,
    or_false] at h
  rcases h with h | h | h | h <;> subst h <;> exact ⟨by decide, by decide, by decide⟩

theorem commaFields_field {f : List Char} (hf : ',' ∉ f) : commaFields f = [f] := by
  induction f with
  | nil => rfl
  | cons c f ih =>
    have hc : c ≠ ',' := fun h => hf (by rw [h]; exact List.mem_cons_self _ _)
    have hf' : ',' ∉ f := fun h => hf (List.mem_cons_of_mem _ h)
    simp only [commaFields, if_neg hc, ih hf']

theorem commaFields_append_comma {f : List Char} (hf : ',' ∉ f) (rest : List Char) :
    commaFields (f ++ ',' :: rest) = f :: commaFields rest := by
  induction f with
  | nil => simp [commaFields]
  | cons c f ih =>
    have hc : c ≠ ',' := fun h => hf (by rw [h]; exact List.mem_cons_self _ _)
    have hf' : ',' ∉ f := fun h => hf (List.mem_cons_of_mem _ h)
    have e : (c :: f) ++ ',' :: rest = c :: (f ++ ',' :: rest) := rfl
    rw [e]
    simp only [commaFields, if_neg hc, ih hf']

theorem commaFields_joinComma : ∀ (fs : List (List Char)), fs ≠ [] →
    (∀ f ∈ fs, ',' ∉ f) → commaFields (joinComma fs) = fs
  | [], h, _ => absurd rfl h
  | [f], _, h => by
    simp only [joinComma]
    exact commaFields_field (h f (List.mem_singleton_self _))
  | f :: g :: fs, _, h => by
    simp only [joinComma]
    rw [commaFields_append_comma (h f (List.mem_cons_self _ _)),
      commaFields_joinComma (g :: fs) (by simp)
        (fun x hx => h x (List.mem_cons_of_mem _ hx))]

theorem NUL_ne_comma : NUL ≠ ',' := by decide

theorem joinComma_no_NUL : ∀ (fs : List (List Char)),
    (∀ f ∈ fs, NUL ∉ f) → NUL ∉ joinComma fs
  | [], _ => by simp [joinComma]
  | [f], h => by
    simp only [joinComma]
    exact h f (List.mem_singleton_self _)
  | f :: g :: fs, h => by
    simp only [joinComma, List.mem_append, List.mem_cons, not_or]
    exact ⟨h f (List.mem_cons_self _ _), NUL_ne_comma,
      joinComma_no_NUL (g :: fs) (fun x hx => h x (List.mem_cons_of_mem _ hx))⟩

theorem cstr_of_no_NUL {s : List Char} (h : NUL ∉ s) : cstr s = s := by
  unfold cstr
  rw [List.takeWhile_eq_self_iff]
  intro c hc
  have : c ≠ NUL := fun e => h (e ▸ hc)
  simpa using this

theorem commaTokens_joinComma (fs : List (List Char)) (h : ∀ f ∈ fs, isField f) :
    commaTokens (joinComma fs) = fs := by
  unfold commaTokens
  rw [cstr_of_no_NUL (joinComma_no_NUL fs (fun f hf => (h f hf).2.2))]
  by_cases hfs : fs = []
  · subst hfs; simp [joinComma, commaFields]
  · rw [commaFields_joinComma fs hfs (fun f hf => (h f hf).2.1)]
    rw [List.filter_eq_self]
    intro f hf
    simpa using (h f hf).1

/-- The result of `createBoatCSV` on five fields joined by commas. -/
theorem createBoatCSV_joinComma (f1 f2 f3 f4 f5 : List Char) (ty : LocationType)
    (h1 : isField f1) (h2 : isField f2) (h3 : isField f3) (h4 : isField f4)
    (h5 : isField f5) (hk : locationKeyword f3 = some ty) :
    createBoatCSV (joinComma [f1, f2, f3, f4, f5]) = some (boatOfTokens f1 f2 f4 f5 ty) := by
  rw [createBoatCSV_eq_tokens, commaTokens_joinComma]
  · simp [hk]
  · intro f hf
    simp only [List.mem_cons, List.mem_singleton, List.mem_nil_iff, or_false] at hf
    rcases hf with rfl | rfl | rfl | rfl | rfl <;> assumption

theorem take_name_of_short {f : List Char} (h : f.length < MAX_NAME_LENGTH) :
    f.take MAX_NAME_LENGTH = f :=
  List.take_of_length_le (by omega)

theorem decimalInteger_28 : decimalInteger "28".toList 28 :=
  ⟨"28".toList, ⟨by decide, by decide⟩,
    Or.inl ⟨rfl, by rw [← decimalValue_eq_digitsNumber]; decide⟩⟩

theorem decimalInteger_23 : decimalInteger "23".toList 23 :=
  ⟨"23".toList, ⟨by decide, by decide⟩,
    Or.inl ⟨rfl, by rw [← decimalValue_eq_digitsNumber]; decide⟩⟩

theorem decimalAmount_1200_50 : decimalAmount "1200.50".toList 1200.50 :=
  ⟨"1200".toList, "50".toList, ⟨by decide, by decide⟩, by decide,
    "1200.50".toList, Or.inr (by decide),
    Or.inl ⟨rfl, by
      rw [← decimalValue_eq_digitsNumber, ← decimalValue_eq_digitsNumber]
      have e1 : decimalValue "1200".toList = 1200 := by decide
      have e2 : decimalValue "50".toList = 50 := by decide
      have e3 : "50".toList.length = 2 := by decide
      rw [e1, e2, e3]
      norm_num⟩⟩

theorem fmt_d_decimalInteger (n : Int) : decimalInteger (fmt_d n) n := by
  obtain ⟨hd, hv⟩ := natDigits_spec (n.natAbs + 1) n.natAbs (by omega)
  rw [decimalValue_eq_digitsNumber] at hv
  refine ⟨natDigits (n.natAbs + 1) n.natAbs, hd, ?_⟩
  unfold fmt_d
  by_cases h : n < 0
  · right; right
    rw [if_pos h, hv]
    exact ⟨rfl, by omega⟩
  · left
    rw [if_neg h, hv]
    exact ⟨rfl, by omega⟩

theorem roundCents_cents (k : Int) : roundCents ((k : ℚ) / 100) = k.natAbs := by
  have hq : |(k : ℚ) / 100| * 100 = ((k.natAbs : ℕ) : ℚ) := by
    rw [abs_div, Nat.cast_natAbs, Int.cast_abs]
    have : |(100 : ℚ)| = 100 := abs_of_pos (by norm_num)
    rw [this]
    field_simp
  unfold roundCents
  simp only [hq, Int.floor_natCast, Int.toNat_ofNat, sub_self]
  rw [if_pos (by norm_num)]

theorem fmt_2f_cents (k : Int) :
    fmt_2f ((k : ℚ) / 100) =
      (if k < 0 then ['-'] else []) ++
        natDigits (k.natAbs / 100 + 1) (k.natAbs / 100) ++
        ['.', digitChar (k.natAbs / 10 % 10), digitChar (k.natAbs % 10)] := by
  have hneg : ((k : ℚ) / 100 < 0) ↔ k < 0 := by
    rw [div_neg_iff]
    constructor
    · rintro (⟨-, h⟩ | ⟨h, -⟩)
      · norm_num at h
      · exact_mod_cast h
    · intro h
      exact Or.inr ⟨by exact_mod_cast h, by norm_num⟩
  unfold fmt_2f
  rw [roundCents_cents]
  by_cases h : k < 0
  · rw [if_pos (hneg.mpr h), if_pos h]
  · rw [if_neg (fun h' => h (hneg.mp h')), if_neg h]

theorem fmt_2f_decimalAmount (k : Int) :
    decimalAmount (fmt_2f ((k : ℚ) / 100)) ((k : ℚ) / 100) := by
  obtain ⟨hd, hv⟩ := natDigits_spec (k.natAbs / 100 + 1) (k.natAbs / 100) (by omega)
  rw [decimalValue_eq_digitsNumber] at hv
  have h1 : k.natAbs / 10 % 10 < 10 := Nat.mod_lt _ (by decide)
  have h0 : k.natAbs % 10 < 10 := Nat.mod_lt _ (by decide)
  have hfp : ∀ c ∈ [digitChar (k.natAbs / 10 % 10), digitChar (k.natAbs % 10)],
      isdigit c = true := by
    intro c hc
    simp only [List.mem_cons, List.mem_singleton, List.mem_nil_iff, or_false] at hc
    rcases hc with rfl | rfl
    · exact isdigit_digitChar h1
    · exact isdigit_digitChar h0
  have hfv : digitsNumber [digitChar (k.natAbs / 10 % 10), digitChar (k.natAbs % 10)]
      = 10 * (k.natAbs / 10 % 10) + k.natAbs % 10 := by
    rw [← decimalValue_eq_digitsNumber]
    simp [decimalValue, digitValue_digitChar h1, digitValue_digitChar h0]
  have hK : k.natAbs = 100 * (k.natAbs / 100) + (10 * (k.natAbs / 10 % 10) + k.natAbs % 10) := by
    omega
  have hKq : ((k.natAbs : ℕ) : ℚ) =
      100 * ((k.natAbs / 100 : ℕ) : ℚ) +
        ((10 * (k.natAbs / 10 % 10) + k.natAbs % 10 : ℕ) : ℚ) := by
    exact_mod_cast hK
  have hval : ((digitsNumber (natDigits (k.natAbs / 100 + 1) (k.natAbs / 100)) : ℕ) : ℚ) +
      ((digitsNumber [digitChar (k.natAbs / 10 % 10), digitChar (k.natAbs % 10)] : ℕ) : ℚ) /
        10 ^ [digitChar (k.natAbs / 10 % 10), digitChar (k.natAbs % 10)].length
      = ((k.natAbs : ℕ) : ℚ) / 100 := by
    rw [hv, hfv, hKq]
    simp only [List.length_cons, List.length_nil]
    norm_num
    ring
  refine ⟨natDigits (k.natAbs / 100 + 1) (k.natAbs / 100),
    [digitChar (k.natAbs / 10 % 10), digitChar (k.natAbs % 10)], hd, hfp,
    natDigits (k.natAbs / 100 + 1) (k.natAbs / 100) ++
      '.' :: [digitChar (k.natAbs / 10 % 10), digitChar (k.natAbs % 10)], Or.inr rfl, ?_⟩
  rw [fmt_2f_cents, hval]
  by_cases h : k < 0
  · right; right
    rw [if_pos h]
    refine ⟨by simp, ?_⟩
    have : (k : ℚ) = - ((k.natAbs : ℕ) : ℚ) := by
      have : k = - (k.natAbs : Int) := by omega
      exact_mod_cast this
    rw [this]; ring
  · left
    rw [if_neg h]
    refine ⟨by simp, ?_⟩
    have hk0 : (0 : ℚ) ≤ (k : ℚ) := by exact_mod_cast (not_lt.mp h)
    rw [Nat.cast_natAbs, Int.cast_abs, abs_of_nonneg hk0]

theorem isField_singleton {c : Char} (h1 : c ≠ ',') (h2 : c ≠ NUL) : isField [c] :=
  ⟨by simp, by simpa using h1.symm, by simpa using h2.symm⟩

theorem saveBoatLine_eq_joinComma (b : Boat) :
    saveBoatLine b =
      joinComma [cstr b.name, fmt_d b.length,
        (match b.type with
          | LocationType.slip => "slip".toList
          | LocationType.land => "land".toList
          | LocationType.trailor => "trailor".toList
          | LocationType.storage => "storage".toList),
        (match b.type with
          | LocationType.slip => fmt_d b.info.number
          | LocationType.land => [b.info.letter]
          | LocationType.trailor => b.info.tag
          | LocationType.storage => fmt_d b.info.number),
        fmt_2f b.amount_owed] := by
  have e1 : ",".toList = [','] := rfl
  have e2 : ",slip,".toList = ',' :: "slip".toList ++ [','] := rfl
  have e3 : ",land,".toList = ',' :: "land".toList ++ [','] := rfl
  have e4 : ",trailor,".toList = ',' :: "trailor".toList ++ [','] := rfl
  have e5 : ",storage,".toList = ',' :: "storage".toList ++ [','] := rfl
  unfold saveBoatLine
  cases b.type <;>
    simp only [joinComma, e1, e2, e3, e4, e5, List.append_assoc, List.cons_append,
      List.nil_append, List.singleton_append]

theorem createBoatCSV_few_tokens (line : List Char) (h : (commaTokens line).length < 5) :
    createBoatCSV line = none := by
  rw [createBoatCSV_eq_tokens]
  rcases hl : commaTokens line with _ | ⟨t1, _ | ⟨t2, _ | ⟨t3, _ | ⟨t4, _ | ⟨t5, rest⟩⟩⟩⟩⟩
  all_goals try rfl
  rw [hl] at h
  simp only [List.length_cons] at h
  omega

theorem createBoatCSV_third_token (line t1 t2 t3 : List Char) (rest : List (List Char))
    (h : commaTokens line = t1 :: t2 :: t3 :: rest) (hk : locationKeyword t3 = none) :
    createBoatCSV line = none := by
  rw [createBoatCSV_eq_tokens, h]
  rcases rest with _ | ⟨t4, _ | ⟨t5, rest⟩⟩ <;> simp [hk]

theorem lineBoat_eleanor : lineBoat eleanor :=
  ⟨⟨by decide, by decide, by decide⟩, by decide, by decide,
    ⟨120050, by simp [eleanor]; norm_num⟩, Or.inl ⟨rfl, 23, rfl, by decide⟩⟩

theorem registry_length (boats : Nat → Boat) (count : Nat) :
    (registry boats count).length = count := by
  simp [registry]

theorem registry_getElem? (boats : Nat → Boat) (count k : Nat) :
    (registry boats count)[k]? = if k < count then some (boats k) else none := by
  unfold registry
  rw [List.getElem?_map]
  split_ifs with h
  · rw [List.getElem?_range h]; rfl
  · rw [List.getElem?_eq_none (by simpa using h)]; rfl

theorem registry_congr {a b : Nat → Boat} {count : Nat} (h : ∀ k, k < count → a k = b k) :
    registry a count = registry b count := by
  apply List.ext_getElem?
  intro k
  rw [registry_getElem?, registry_getElem?]
  split_ifs with hk
  · rw [h k hk]
  · rfl

/-- C17. For a registry with `count < 120`, `insertBoat` returns `count + 1`, and the
sequence afterwards is the old sequence with the new boat put in at one position `pos`:
the records before `pos` stay where they were, the new boat is at `pos`, and the records
from `pos` on follow it, unmodified and in their old order, each one slot further. -/
theorem insertBoat_inserts (boats : Nat → Boat) (count : Nat) (nb : Boat)
    (h : count < MAX_BOATS) :
    (insertBoat boats count nb).2 = count + 1 ∧
    ∃ pos, pos ≤ count ∧
      registry (insertBoat boats count nb).1 (count + 1) =
        (registry boats count).take pos ++ nb :: (registry boats count).drop pos ∧
      (∀ k, k < pos → (insertBoat boats count nb).1 k = boats k) ∧
      (insertBoat boats count nb).1 pos = nb ∧
      (∀ k, pos ≤ k → k < count → (insertBoat boats count nb).1 (k + 1) = boats k) := by
  have hp := (insertBoat_pos_spec boats nb count 0).2.1
  have happ := insertBoat_apply boats count nb h
  generalize insertBoat_pos boats nb count 0 = p at hp happ
  refine ⟨insertBoat_count boats count nb h, p, by omega, ?_, ?_, ?_, ?_⟩
  · apply List.ext_getElem?
    intro k
    rw [registry_getElem?, happ, List.getElem?_append, List.length_take, registry_length,
      List.getElem?_take, registry_getElem?]
    have hmin : min p count = p := by omega
    rw [hmin]
    by_cases h1 : k < p
    · rw [if_pos (by omega), if_pos h1, if_pos h1, if_pos h1, if_pos (by omega)]
    · rw [if_neg h1, if_neg h1]
      by_cases h2 : k = p
      · rw [if_pos h2, h2, Nat.sub_self, if_pos (by omega)]
        simp
      · obtain ⟨j, hj⟩ : ∃ j, k - p = j + 1 := ⟨k - p - 1, by omega⟩
        rw [if_neg h2, hj, List.getElem?_cons_succ, List.getElem?_drop, registry_getElem?]
        have e : p + j = k - 1 := by omega
        rw [e]
        by_cases h3 : k < count + 1
        · rw [if_pos h3, if_pos (by omega), if_pos (by omega)]
        · rw [if_neg h3, if_neg (by omega)]
  · intro k hk
    rw [happ, if_pos hk]
  · rw [happ, if_neg (by omega), if_pos rfl]
  · intro k hk1 hk2
    rw [happ, if_neg (by omega), if_neg (by omega), if_pos (by omega)]
    rfl

/-- Witness for C17: Ann inserted into the registry holding Zed. -/
theorem insertBoat_inserts_witness :
    1 < MAX_BOATS ∧
    (insertBoat (Function.update blankArray 0 (landBoat "Zed" 10 'B')) 1
      (landBoat "Ann" 10 'A')).2 = 1 + 1 ∧
    registry (insertBoat (Function.update blankArray 0 (landBoat "Zed" 10 'B')) 1
      (landBoat "Ann" 10 'A')).1 2 = [landBoat "Ann" 10 'A', landBoat "Zed" 10 'B'] :=
  ⟨by decide,
   (insertBoat_inserts (Function.update blankArray 0 (landBoat "Zed" 10 'B')) 1
      (landBoat "Ann" 10 'A') (by decide)).1,
   by decide⟩

theorem strcasecmp_self : ∀ a : List Char, strcasecmp a a = 0
  | [] => rfl
  | a :: s => by
    by_cases h : lowerKey a = 0
    · exact strcasecmp_cons_end rfl h s s
    · rw [strcasecmp_cons_eq rfl h]
      exact strcasecmp_self s

/-- C18. Find after insert: for a registry with `count < 120`, in order or not, and a
new boat `b`, the call `findBoat` with the name of `b` on the registry that `insertBoat`
returns gives the index at which `b` was stored, which is the index `insertBoat` chose. -/
theorem findBoat_after_insertBoat (boats : Nat → Boat) (count : Nat) (nb : Boat)
    (h : count < MAX_BOATS) :
    ∃ pos : Nat, pos ≤ count ∧
      findBoat (insertBoat boats count nb).1 (insertBoat boats count nb).2 nb.name
        = (pos : Int) ∧
      (insertBoat boats count nb).1 pos = nb ∧
      (∀ k, k < pos → (insertBoat boats count nb).1 k = boats k ∧
        strcasecmp (boats k).name nb.name ≠ 0) := by
  obtain ⟨-, hp2, hp3, -⟩ := insertBoat_pos_spec boats nb count 0
  have happ := insertBoat_apply boats count nb h
  rw [insertBoat_count boats count nb h]
  generalize insertBoat_pos boats nb count 0 = p at hp2 hp3 happ
  have hat : (insertBoat boats count nb).1 p = nb := by
    rw [happ, if_neg (by omega), if_pos rfl]
  have hbelow : ∀ k, k < p → (insertBoat boats count nb).1 k = boats k ∧
      strcasecmp (boats k).name nb.name ≠ 0 := by
    intro k hk
    refine ⟨by rw [happ, if_pos hk], ?_⟩
    have := hp3 k (Nat.zero_le _) hk
    rw [strcasecmp_swap nb.name (boats k).name]
    omega
  refine ⟨p, by omega, ?_, hat, hbelow⟩
  unfold findBoat
  rcases findBoat_loop_spec (insertBoat boats count nb).1 nb.name (count + 1) 0 with
    ⟨-, h2⟩ | ⟨k, h1, -, h3, h4, h5⟩
  · exfalso
    apply h2 p (Nat.zero_le _) (by omega)
    rw [hat]; exact strcasecmp_self _
  · rw [h1]
    rcases Nat.lt_trichotomy k p with hlt | heq | hgt
    · exfalso
      rw [(hbelow k hlt).1] at h4
      exact (hbelow k hlt).2 h4
    · rw [heq]
    · exfalso
      apply h5 p (Nat.zero_le _) hgt
      rw [hat]; exact strcasecmp_self _

/-- Witness for C18: after `ann` is inserted into the registry holding Ann, `findBoat`
for `ann` returns index 0, where the new boat is, and not the index of the older Ann. -/
theorem findBoat_after_insertBoat_witness :
    1 < MAX_BOATS ∧
    (∃ pos : Nat, pos ≤ 1 ∧
      findBoat (insertBoat oneAnn 1 (landBoat "ann" 12 'B')).1
        (insertBoat oneAnn 1 (landBoat "ann" 12 'B')).2 (landBoat "ann" 12 'B').name
        = (pos : Int) ∧
      (insertBoat oneAnn 1 (landBoat "ann" 12 'B')).1 pos = landBoat "ann" 12 'B' ∧
      (∀ k, k < pos → (insertBoat oneAnn 1 (landBoat "ann" 12 'B')).1 k = oneAnn k ∧
        strcasecmp (oneAnn k).name (landBoat "ann" 12 'B').name ≠ 0)) ∧
    findBoat (insertBoat oneAnn 1 (landBoat "ann" 12 'B')).1 2 "ann".toList = 0 :=
  ⟨by decide, findBoat_after_insertBoat oneAnn 1 (landBoat "ann" 12 'B') (by decide),
   by decide⟩

/-- C19. `createBoatCSV` works on the non-empty comma-separated tokens of the line: two
lines with the same first five tokens give the same result, so empty fields and tokens
after the fifth play no part; a boat is returned exactly when there are at least five
tokens and the third is one of `slip`, `land`, `trailor`, `storage`; and the line
`a,,1,slip,2,3` is accepted as name a, length 1, slip 2, amount 3. -/
theorem createBoatCSV_by_tokens :
    (∀ l1 l2 : List Char, (commaTokens l1).take 5 = (commaTokens l2).take 5 →
      createBoatCSV l1 = createBoatCSV l2) ∧
    (∀ line : List Char, (createBoatCSV line).isSome = true ↔
      (5 ≤ (commaTokens line).length ∧
        ∃ t3, (commaTokens line).get? 2 = some t3 ∧ t3 ∈ locationKeywords)) ∧
    commaTokens "a,,1,slip,2,3".toList =
      ["a".toList, "1".toList, "slip".toList, "2".toList, "3".toList] ∧
    createBoatCSV "a,,1,slip,2,3".toList =
      some { name := "a".toList, length := 1, type := LocationType.slip,
             info := LocationInfo.slip_number 2, amount_owed := 3 } := by
  have hfive : ∀ line : List Char, createBoatCSV line =
      match (commaTokens line).take 5 with
      | [t1, t2, t3, t4, t5] => (locationKeyword t3).map (boatOfTokens t1 t2 t4 t5)
      | _ => none := by
    intro line
    rw [createBoatCSV_eq_tokens]
    rcases commaTokens line with _ | ⟨t1, _ | ⟨t2, _ | ⟨t3, _ | ⟨t4, _ | ⟨t5, rest⟩⟩⟩⟩⟩ <;> rfl
  refine ⟨fun l1 l2 h => by rw [hfive l1, hfive l2, h], fun line => ?_, by decide, ?_⟩
  · rw [createBoatCSV_eq_tokens]
    rcases commaTokens line with _ | ⟨t1, _ | ⟨t2, _ | ⟨t3, _ | ⟨t4, _ | ⟨t5, rest⟩⟩⟩⟩⟩
    all_goals try (simp; done)
    constructor
    · intro h
      refine ⟨by simp, t3, rfl, ?_⟩
      by_contra hk
      simp [locationKeyword_eq_none hk] at h
    · rintro ⟨-, t, ht, hk⟩
      have : t = t3 := by simpa using ht.symm
      subst this
      obtain ⟨ty, hty⟩ := locationKeyword_isSome hk
      simp [hty]
  · rw [createBoatCSV_eq_tokens]
    have ht : commaTokens "a,,1,slip,2,3".toList =
        ["a".toList, "1".toList, "slip".toList, "2".toList, "3".toList] := by decide
    have hk : locationKeyword "slip".toList = some LocationType.slip := by decide
    have h2 : atoi "1".toList = 1 := by decide
    have h4 : locationValue LocationType.slip "2".toList = LocationInfo.slip_number 2 := by
      decide
    have h5 : atof "3".toList = 3 := by
      simp [atof, atof_unsigned, atof_exponent, decimalValue, digitValue, isdigit, isspace]
    rw [ht]
    simp only [hk, Option.map, boatOfTokens, h2, h4, h5]
    rfl

theorem main_r_shift_apply :
    ∀ (n i : Nat) (boats : Nat → Boat) (k : Nat),
      main_r_shift n i boats k = if i ≤ k ∧ k < i + n then boats (k + 1) else boats k
  | 0, i, boats, k => by
    simp only [main_r_shift]
    rw [if_neg (by omega)]
  | n + 1, i, boats, k => by
    simp only [main_r_shift]
    rw [main_r_shift_apply n (i + 1)]
    by_cases hk : k = i
    · subst hk
      rw [if_neg (by omega), if_pos (by omega), Function.update_same]
    · rw [Function.update_noteq hk]
      by_cases h : i + 1 ≤ k ∧ k < i + 1 + n
      · rw [if_pos h, if_pos (by omega), Function.update_noteq (by omega)]
      · rw [if_neg h, if_neg (by omega)]

theorem main_r_found (boats : Nat → Boat) (count : Nat) (name : List Char) (i : Nat)
    (hfind : findBoat boats count name = (i : Int)) :
    i < count ∧ (main_r boats count name).2 = count - 1 ∧
    ∀ k, (main_r boats count name).1 k =
      if i ≤ k ∧ k < count - 1 then boats (k + 1) else boats k := by
  have hi : i < count := by
    rcases (findBoat_loop_spec boats name count 0) with ⟨h1, -⟩ | ⟨k, h1, -, h3, -, -⟩
    · unfold findBoat at hfind; rw [h1] at hfind; omega
    · unfold findBoat at hfind; rw [h1] at hfind
      have : k = i := by exact_mod_cast hfind
      omega
  have hne : ¬ ((i : Int) = -1) := by omega
  have hmain : main_r boats count name = (main_r_shift (count - 1 - i) i boats, count - 1) := by
    simp only [main_r, hfind, if_neg hne, Int.toNat_ofNat]
  rw [hmain]
  refine ⟨hi, rfl, fun k => ?_⟩
  simp only
  rw [main_r_shift_apply]
  by_cases h : i ≤ k ∧ k < count - 1
  · rw [if_pos h, if_pos (by omega)]
  · rw [if_neg h, if_neg (by omega)]

theorem main_r_not_found (boats : Nat → Boat) (count : Nat) (name : List Char)
    (hfind : findBoat boats count name = -1) : main_r boats count name = (boats, count) := by
  simp only [main_r, hfind, if_true]

theorem main_r_sorted (boats : Nat → Boat) (count : Nat) (name : List Char)
    (hs : sortedByName boats count) :
    sortedByName (main_r boats count name).1 (main_r boats count name).2 := by
  rcases (findBoat_first_match_aux boats count name) with h | ⟨i, h⟩
  · rw [main_r_not_found boats count name h]; exact hs
  · obtain ⟨hi, hc, happ⟩ := main_r_found boats count name i h
    intro a b hab hb
    rw [hc] at hb
    rw [happ a, happ b]
    by_cases ha : i ≤ a ∧ a < count - 1
    · rw [if_pos ha, if_pos (by omega)]
      exact hs (a + 1) (b + 1) (by omega) (by omega)
    · rw [if_neg ha]
      by_cases hb' : i ≤ b ∧ b < count - 1
      · rw [if_pos hb']
        exact hs a (b + 1) (by omega) (by omega)
      · rw [if_neg hb']
        exact hs a b hab (by omega)

/-- C13. Remove step of the command `r`: when `findBoat` finds the name at index `i`,
the count goes down by one and the sequence afterwards is the old sequence with exactly
the element at `i` deleted, the later elements one slot to the left in their old order;
when the name is not found, the array and the count are unchanged. If the names were in
case-insensitive non-descending order before, they are afterwards. -/
theorem main_r_removes (boats : Nat → Boat) (count : Nat) (name : List Char) :
    (∀ i : Nat, findBoat boats count name = (i : Int) →
      (main_r boats count name).2 = count - 1 ∧
      registry (main_r boats count name).1 (main_r boats count name).2 =
        (registry boats count).eraseIdx i ∧
      (∀ k, k < i → (main_r boats count name).1 k = boats k) ∧
      (∀ k, i ≤ k → k < count - 1 → (main_r boats count name).1 k = boats (k + 1))) ∧
    (findBoat boats count name = -1 → main_r boats count name = (boats, count)) ∧
    (sortedByName boats count →
      sortedByName (main_r boats count name).1 (main_r boats count name).2) := by
  refine ⟨fun i hfind => ?_, main_r_not_found boats count name,
    main_r_sorted boats count name⟩
  obtain ⟨hi, hc, happ⟩ := main_r_found boats count name i hfind
  refine ⟨hc, ?_, fun k hk => by rw [happ, if_neg (by omega)],
    fun k hk1 hk2 => by rw [happ, if_pos ⟨hk1, hk2⟩]⟩
  rw [hc]
  apply List.ext_getElem?
  intro k
  rw [registry_getElem?, List.getElem?_eraseIdx, registry_getElem?, registry_getElem?, happ]
  split_ifs <;> first | rfl | (exfalso; omega)

/-- Example for C13: removing the only boat gives count 0 and an empty sequence, and
removing Ann from the registry holding Ann and Zed leaves Zed. -/
theorem main_r_removes_witness :
    (main_r oneAnn 1 "ANN".toList).2 = 0 ∧
    registry (main_r oneAnn 1 "ANN".toList).1 (main_r oneAnn 1 "ANN".toList).2 = [] ∧
    registry (main_r annZed 2 "ann".toList).1 (main_r annZed 2 "ann".toList).2
      = [landBoat "Zed" 10 'B'] ∧
    main_r annZed 2 "Bob".toList = (annZed, 2) := by
  have h1 := (main_r_removes oneAnn 1 "ANN".toList).1 0 (by decide)
  have h2 := (main_r_removes annZed 2 "ann".toList).1 0 (by decide)
  have h3 := (main_r_removes annZed 2 "Bob".toList).2.1 (by decide)
  refine ⟨h1.1, ?_, ?_, h3⟩
  · rw [h1.2.1]; decide
  · rw [h2.2.1]; decide

theorem fgets_read_line : ∀ (l : List Char) (k : Nat) (rest : List Char),
    '\n' ∉ l → l.length < k → fgets_read k (l ++ '\n' :: rest) = (l ++ ['\n'], rest)
  | [], k, rest, _, hk => by
    obtain ⟨k', rfl⟩ : ∃ k', k = k' + 1 := ⟨k - 1, by simp at hk; omega⟩
    simp [fgets_read]
  | c :: l, k, rest, hn, hk => by
    obtain ⟨k', rfl⟩ : ∃ k', k = k' + 1 := ⟨k - 1, by simp at hk; omega⟩
    have hc : c ≠ '\n' := fun h => hn (by rw [h]; exact List.mem_cons_self _ _)
    have hl : '\n' ∉ l := fun h => hn (List.mem_cons_of_mem _ h)
    have ih := fgets_read_line l k' rest hl (by simp at hk; omega)
    have e : (c :: l) ++ '\n' :: rest = c :: (l ++ '\n' :: rest) := rfl
    rw [e]
    simp only [fgets_read, if_neg hc, ih]
    rfl

theorem fgets_read_last : ∀ (l : List Char) (k : Nat),
    '\n' ∉ l → l.length ≤ k → fgets_read k l = (l, [])
  | [], k, _, _ => by cases k <;> rfl
  | c :: l, k, hn, hk => by
    obtain ⟨k', rfl⟩ : ∃ k', k = k' + 1 := ⟨k - 1, by simp at hk; omega⟩
    have hc : c ≠ '\n' := fun h => hn (by rw [h]; exact List.mem_cons_self _ _)
    have hl : '\n' ∉ l := fun h => hn (List.mem_cons_of_mem _ h)
    have ih := fgets_read_last l k' hl (by simp at hk; omega)
    simp only [fgets_read, if_neg hc, ih]

theorem mem_takeWhile_both (p : Char → Bool) : ∀ (l : List Char) (x : Char),
    x ∈ l.takeWhile p → p x = true ∧ x ∈ l
  | [], x, h => by simp at h
  | c :: l, x, h => by
    by_cases hc : p c = true
    · rw [List.takeWhile_cons_of_pos hc] at h
      rcases List.mem_cons.mp h with rfl | h'
      · exact ⟨hc, List.mem_cons_self _ _⟩
      · exact ⟨(mem_takeWhile_both p l x h').1,
          List.mem_cons_of_mem _ (mem_takeWhile_both p l x h').2⟩
    · rw [List.takeWhile_cons_of_neg hc] at h
      simp at h

theorem cstr_idem (s : List Char) : cstr (cstr s) = cstr s := by
  unfold cstr
  rw [List.takeWhile_eq_self_iff]
  intro c hc
  exact (mem_takeWhile_both _ s c hc).1

theorem createBoatCSV_cstr (s : List Char) : createBoatCSV (cstr s) = createBoatCSV s := by
  unfold createBoatCSV
  rw [cstr_idem]

theorem loadBoats_cut_line : ∀ (l : List Char), '\n' ∉ l →
    loadBoats_cut (l ++ ['\n']) = cstr l
  | [], _ => by decide
  | c :: l, hn => by
    have hc : c ≠ '\n' := fun h => hn (by rw [h]; exact List.mem_cons_self _ _)
    have hl : '\n' ∉ l := fun h => hn (List.mem_cons_of_mem _ h)
    have ih := loadBoats_cut_line l hl
    unfold loadBoats_cut at ih ⊢
    by_cases h0 : c = NUL
    · subst h0
      simp [cstr_cons_NUL]
    · rw [List.cons_append, cstr_cons_of_ne h0, cstr_cons_of_ne h0,
        List.takeWhile_cons_of_pos (by simpa using hc), ih]

theorem loadBoats_cut_last (l : List Char) (hn : '\n' ∉ l) : loadBoats_cut l = cstr l := by
  unfold loadBoats_cut
  rw [List.takeWhile_eq_self_iff]
  intro c hc
  have hcl : c ∈ l := (mem_takeWhile_both _ l c hc).2
  have : c ≠ '\n' := fun h => hn (h ▸ hcl)
  simpa using this

theorem loadBoats_loop_nil (fuel : Nat) (boats : Nat → Boat) (count : Nat) :
    loadBoats_loop fuel [] boats count = (boats, count) := by
  cases fuel <;> simp [loadBoats_loop, fgets]

theorem storeRecords_full (bs : List Boat) (boats : Nat → Boat) (count : Nat)
    (h : ¬ count < MAX_BOATS) : storeRecords bs boats count = (boats, count) := by
  cases bs with
  | nil => rfl
  | cons b bs => simp only [storeRecords, if_neg h]

theorem fileText_length_pos (l : List Char) (ls : List (List Char)) (last : List Char) :
    (fileText (l :: ls) ++ last).length = l.length + 1 + (fileText ls ++ last).length := by
  simp [fileText]
  omega

theorem fgets_line (l rest : List Char) (hl : isLine l) :
    fgets 256 (l ++ '\n' :: rest) = some (l ++ ['\n'], rest) := by
  have h := fgets_read_line l 255 rest hl.1 hl.2
  cases l with
  | nil => simpa [fgets] using h
  | cons c l => simpa [fgets] using h

theorem fgets_last (c : Char) (l : List Char) (hl : isLine (c :: l)) :
    fgets 256 (c :: l) = some (c :: l, []) := by
  have h := fgets_read_last (c :: l) 255 hl.1 (le_of_lt hl.2)
  simpa [fgets] using h

theorem loadBoats_loop_last (last : List Char) (hlast : isLine last) (fuel : Nat)
    (boats : Nat → Boat) (count : Nat) (hf : last.length ≤ fuel) :
    loadBoats_loop fuel last boats count =
      storeRecords ([last].filterMap createBoatCSV) boats count := by
  cases last with
  | nil =>
    rw [loadBoats_loop_nil]
    have : createBoatCSV [] = none := by decide
    simp [List.filterMap, this, storeRecords]
  | cons c l =>
    obtain ⟨fuel', rfl⟩ : ∃ f, fuel = f + 1 := ⟨fuel - 1, by simp at hf; omega⟩
    have hcut : createBoatCSV (loadBoats_cut (c :: l)) = createBoatCSV (c :: l) := by
      rw [loadBoats_cut_last _ hlast.1, createBoatCSV_cstr]
    simp only [loadBoats_loop, fgets_last c l hlast, hcut]
    by_cases hc : count < MAX_BOATS
    · rw [if_pos hc]
      cases hb : createBoatCSV (c :: l) with
      | none => simp [List.filterMap, hb, storeRecords, loadBoats_loop_nil]
      | some b => simp [List.filterMap, hb, storeRecords, loadBoats_loop_nil, hc]
    · rw [if_neg hc, storeRecords_full _ _ _ hc]

theorem loadBoats_loop_lines (last : List Char) (hlast : isLine last) :
    ∀ (lines : List (List Char)), (∀ l ∈ lines, isLine l) →
      ∀ (fuel : Nat) (boats : Nat → Boat) (count : Nat),
        (fileText lines ++ last).length ≤ fuel →
        loadBoats_loop fuel (fileText lines ++ last) boats count =
          storeRecords ((lines ++ [last]).filterMap createBoatCSV) boats count
  | [], _, fuel, boats, count, hf => by
    simpa [fileText] using
      loadBoats_loop_last last hlast fuel boats count (by simpa [fileText] using hf)
  | l :: ls, hl, fuel, boats, count, hf => by
    have hline : isLine l := hl l (List.mem_cons_self _ _)
    have hrest : ∀ x ∈ ls, isLine x := fun x hx => hl x (List.mem_cons_of_mem _ hx)
    rw [fileText_length_pos] at hf
    obtain ⟨fuel', rfl⟩ : ∃ f, fuel = f + 1 := ⟨fuel - 1, by omega⟩
    have ih := loadBoats_loop_lines last hlast ls hrest fuel'
    have hcut : createBoatCSV (loadBoats_cut (l ++ ['\n'])) = createBoatCSV l := by
      rw [loadBoats_cut_line _ hline.1, createBoatCSV_cstr]
    have htext : fileText (l :: ls) ++ last = l ++ '\n' :: (fileText ls ++ last) := by
      simp [fileText]
    rw [htext]
    simp only [loadBoats_loop, fgets_line l _ hline, hcut]
    by_cases hc : count < MAX_BOATS
    · rw [if_pos hc]
      cases hb : createBoatCSV l with
      | none =>
        simp only [List.cons_append, List.filterMap_cons, hb]
        exact ih boats count (by omega)
      | some b =>
        simp only [List.cons_append, List.filterMap_cons, hb, storeRecords, if_pos hc]
        exact ih _ _ (by omega)
    · rw [if_neg hc, storeRecords_full _ _ _ hc]

theorem storeRecords_spec : ∀ (bs : List Boat) (boats : Nat → Boat) (count : Nat),
    count ≤ MAX_BOATS →
    (storeRecords bs boats count).2 = min MAX_BOATS (count + bs.length) ∧
    ∀ k, (storeRecords bs boats count).1 k =
      if count ≤ k ∧ k < min MAX_BOATS (count + bs.length) then (bs.get? (k - count)).getD (boats k)
      else boats k
  | [], boats, count, hc => by
    simp only [storeRecords, List.length_nil, Nat.add_zero]
    refine ⟨by omega, fun k => ?_⟩
    rw [if_neg (by omega)]
  | b :: bs, boats, count, hc => by
    simp only [storeRecords, List.length_cons]
    by_cases h : count < MAX_BOATS
    · rw [if_pos h]
      obtain ⟨h1, h2⟩ := storeRecords_spec bs (Function.update boats count b) (count + 1)
        (by omega)
      refine ⟨by rw [h1]; congr 1; omega, fun k => ?_⟩
      rw [h2 k]
      have e : count + 1 + bs.length = count + (bs.length + 1) := by omega
      rw [e]
      by_cases hk : k = count
      · subst hk
        rw [if_neg (by omega), if_pos (by omega), Function.update_same]
        simp
      · rw [Function.update_noteq hk]
        by_cases hk2 : count + 1 ≤ k ∧ k < min MAX_BOATS (count + (bs.length + 1))
        · rw [if_pos hk2, if_pos (by omega)]
          obtain ⟨j, hj⟩ : ∃ j, k - count = j + 1 := ⟨k - count - 1, by omega⟩
          have e2 : k - (count + 1) = j := by omega
          rw [hj, e2]
          simp
        · rw [if_neg hk2, if_neg (by omega)]
    · rw [if_neg h]
      refine ⟨by simp only; omega, fun k => ?_⟩
      rw [if_neg (by omega)]

theorem storeRecords_registry (bs : List Boat) (boats : Nat → Boat) :
    (storeRecords bs boats 0).2 = min MAX_BOATS bs.length ∧
    registry (storeRecords bs boats 0).1 (storeRecords bs boats 0).2 = bs.take MAX_BOATS ∧
    ∀ k, (storeRecords bs boats 0).2 ≤ k → (storeRecords bs boats 0).1 k = boats k := by
  obtain ⟨h1, h2⟩ := storeRecords_spec bs boats 0 (Nat.zero_le _)
  rw [Nat.zero_add] at h1 h2
  refine ⟨h1, ?_, fun k hk => ?_⟩
  · rw [h1]
    apply List.ext_getElem?
    intro k
    rw [registry_getElem?, List.getElem?_take, h2 k]
    by_cases hk : k < min MAX_BOATS bs.length
    · rw [if_pos hk, if_pos ⟨Nat.zero_le _, hk⟩, if_pos (by omega)]
      have hlt : k < bs.length := by omega
      simp [List.getElem?_eq_getElem hlt, List.get?_eq_getElem?]
    · rw [if_neg hk]
      by_cases hk2 : k < MAX_BOATS
      · rw [if_pos hk2, List.getElem?_eq_none (by omega)]
      · rw [if_neg hk2]
  · rw [h2 k, if_neg (by rw [h1] at hk; omega)]

theorem atof_zero_text : atof "0.00".toList = 0 := by
  simp [atof, atof_unsigned, atof_exponent, decimalValue, digitValue, isdigit, isspace]

theorem atof_1200_50 : atof "1200.50".toList = 1200.50 := by
  simp [atof, atof_unsigned, atof_exponent, decimalValue, digitValue, isdigit, isspace]
  norm_num

theorem createBoatCSV_eleanor :
    createBoatCSV "Eleanor,28,slip,23,1200.50".toList = some eleanor := by
  rw [createBoatCSV_eq_tokens]
  have ht : commaTokens "Eleanor,28,slip,23,1200.50".toList =
      ["Eleanor".toList, "28".toList, "slip".toList, "23".toList, "1200.50".toList] := by
    decide
  have hk : locationKeyword "slip".toList = some LocationType.slip := by decide
  have h2 : atoi "28".toList = 28 := by decide
  have h4 : locationValue LocationType.slip "23".toList = LocationInfo.slip_number 23 := by
    decide
  rw [ht]
  simp only [hk, Option.map, boatOfTokens, h2, h4, atof_1200_50]
  rfl

theorem createBoatCSV_zed :
    createBoatCSV "Zed,10,land,B,0.00".toList = some (landBoat "Zed" 10 'B') := by
  rw [createBoatCSV_eq_tokens]
  have ht : commaTokens "Zed,10,land,B,0.00".toList =
      ["Zed".toList, "10".toList, "land".toList, "B".toList, "0.00".toList] := by decide
  have hk : locationKeyword "land".toList = some LocationType.land := by decide
  have h2 : atoi "10".toList = 10 := by decide
  have h4 : locationValue LocationType.land "B".toList = LocationInfo.bay_letter 'B' := by
    decide
  rw [ht]
  simp only [hk, Option.map, boatOfTokens, h2, h4, atof_zero_text]
  rfl

theorem createBoatCSV_ann :
    createBoatCSV "Ann,10,land,A,0.00".toList = some (landBoat "Ann" 10 'A') := by
  rw [createBoatCSV_eq_tokens]
  have ht : commaTokens "Ann,10,land,A,0.00".toList =
      ["Ann".toList, "10".toList, "land".toList, "A".toList, "0.00".toList] := by decide
  have hk : locationKeyword "land".toList = some LocationType.land := by decide
  have h2 : atoi "10".toList = 10 := by decide
  have h4 : locationValue LocationType.land "A".toList = LocationInfo.bay_letter 'A' := by
    decide
  rw [ht]
  simp only [hk, Option.map, boatOfTokens, h2, h4, atof_zero_text]
  rfl

/-- C11 (code at the failing input). For a line with keyword `trailor` and at least five
tokens `createBoatCSV` succeeds and stores the first 16 characters of the fourth token,
the whole size of the buffer `trailor_tag`. For the 16-character value `ABCDEFGHIJKLMNOP`
all 16 characters are stored, so no room is left for the terminator, and the value
`ABCDEFGHIJKLMNOPQ` is cut to 16 characters, not to 15. -/
theorem createBoatCSV_trailor_tag_sixteen :
    (∀ (line t1 t2 t4 t5 : List Char) (rest : List (List Char)),
      commaTokens line = t1 :: t2 :: "trailor".toList :: t4 :: t5 :: rest →
      ∃ b, createBoatCSV line = some b ∧ b.type = LocationType.trailor ∧
        b.info = LocationInfo.trailor_tag (t4.take 16)) ∧
    createBoatCSV "Boat,20,trailor,ABCDEFGHIJKLMNOP,0.00".toList =
      some { name := "Boat".toList, length := 20, type := LocationType.trailor,
             info := LocationInfo.trailor_tag "ABCDEFGHIJKLMNOP".toList, amount_owed := 0 } ∧
    "ABCDEFGHIJKLMNOP".toList.length = 16 ∧
    createBoatCSV "Boat,20,trailor,ABCDEFGHIJKLMNOPQ,0.00".toList =
      some { name := "Boat".toList, length := 20, type := LocationType.trailor,
             info := LocationInfo.trailor_tag "ABCDEFGHIJKLMNOP".toList, amount_owed := 0 } := by
  have hk : locationKeyword "trailor".toList = some LocationType.trailor := by decide
  have h2 : atoi "20".toList = 20 := by decide
  refine ⟨fun line t1 t2 t4 t5 rest htok => ?_, ?_, by decide, ?_⟩
  · refine ⟨boatOfTokens t1 t2 t4 t5 LocationType.trailor, ?_, rfl, rfl⟩
    rw [createBoatCSV_eq_tokens, htok]
    simp only [hk, Option.map]
  · rw [createBoatCSV_eq_tokens]
    have ht : commaTokens "Boat,20,trailor,ABCDEFGHIJKLMNOP,0.00".toList =
        ["Boat".toList, "20".toList, "trailor".toList, "ABCDEFGHIJKLMNOP".toList,
          "0.00".toList] := by decide
    have h4 : locationValue LocationType.trailor "ABCDEFGHIJKLMNOP".toList =
        LocationInfo.trailor_tag "ABCDEFGHIJKLMNOP".toList := by decide
    rw [ht]
    simp only [hk, Option.map, boatOfTokens, h2, h4, atof_zero_text]
    rfl
  · rw [createBoatCSV_eq_tokens]
    have ht : commaTokens "Boat,20,trailor,ABCDEFGHIJKLMNOPQ,0.00".toList =
        ["Boat".toList, "20".toList, "trailor".toList, "ABCDEFGHIJKLMNOPQ".toList,
          "0.00".toList] := by decide
    have h4 : locationValue LocationType.trailor "ABCDEFGHIJKLMNOPQ".toList =
        LocationInfo.trailor_tag "ABCDEFGHIJKLMNOP".toList := by decide
    rw [ht]
    simp only [hk, Option.map, boatOfTokens, h2, h4, atof_zero_text]
    rfl

/-- C12. Bulk load: for a file made of lines that `fgets` reads whole (no line has 255
characters or more; the last line may lack its newline), `loadBoats` returns the records
of the lines that `createBoatCSV` accepts, in file order, without the lines it rejects,
and at most `MAX_BOATS` of them: the count is the smaller of 120 and the number of
accepted lines, the first `count` slots hold the first `count` accepted records, and no
other slot changes. A file that cannot be opened gives count 0. -/
theorem loadBoats_loads (lines : List (List Char)) (last : List Char) (boats : Nat → Boat)
    (hl : ∀ l ∈ lines, isLine l) (hlast : isLine last) :
    (loadBoats (some (fileText lines ++ last)) boats).2 =
      min MAX_BOATS ((lines ++ [last]).filterMap createBoatCSV).length ∧
    (loadBoats (some (fileText lines ++ last)) boats).2 ≤ 120 ∧
    registry (loadBoats (some (fileText lines ++ last)) boats).1
        (loadBoats (some (fileText lines ++ last)) boats).2 =
      ((lines ++ [last]).filterMap createBoatCSV).take MAX_BOATS ∧
    (∀ k, (loadBoats (some (fileText lines ++ last)) boats).2 ≤ k →
      (loadBoats (some (fileText lines ++ last)) boats).1 k = boats k) ∧
    loadBoats none boats = (boats, 0) := by
  have hloop : loadBoats (some (fileText lines ++ last)) boats =
      storeRecords ((lines ++ [last]).filterMap createBoatCSV) boats 0 :=
    loadBoats_loop_lines last hlast lines hl _ boats 0 (le_refl _)
  obtain ⟨h1, h2, h3⟩ := storeRecords_registry ((lines ++ [last]).filterMap createBoatCSV) boats
  rw [hloop]
  refine ⟨h1, ?_, h2, h3, rfl⟩
  rw [h1]
  exact Nat.min_le_left _ _

/-- Witness for C12: a file with the well-formed line `Eleanor,28,slip,23,1200.50` and
the malformed line `not a boat` gives count 1 and a registry holding only Eleanor. -/
theorem loadBoats_loads_witness :
    (∀ l ∈ ["Eleanor,28,slip,23,1200.50".toList, "not a boat".toList], isLine l) ∧
    isLine [] ∧
    fileText ["Eleanor,28,slip,23,1200.50".toList, "not a boat".toList] ++ [] =
      "Eleanor,28,slip,23,1200.50\nnot a boat\n".toList ∧
    (loadBoats (some "Eleanor,28,slip,23,1200.50\nnot a boat\n".toList) blankArray).2 = 1 ∧
    registry (loadBoats (some "Eleanor,28,slip,23,1200.50\nnot a boat\n".toList) blankArray).1
      (loadBoats (some "Eleanor,28,slip,23,1200.50\nnot a boat\n".toList) blankArray).2
      = [eleanor] := by
  have hl : ∀ l ∈ ["Eleanor,28,slip,23,1200.50".toList, "not a boat".toList], isLine l := by
    intro l h
    simp only [List.mem_cons, List.mem_singleton, List.mem_nil_iff, or_false] at h
    rcases h with rfl | rfl <;> exact ⟨by decide, by decide⟩
  have hlast : isLine [] := ⟨by decide, by decide⟩
  have htext : fileText ["Eleanor,28,slip,23,1200.50".toList, "not a boat".toList] ++ [] =
      "Eleanor,28,slip,23,1200.50\nnot a boat\n".toList := by decide
  have hacc : (["Eleanor,28,slip,23,1200.50".toList, "not a boat".toList] ++
      [[]]).filterMap createBoatCSV = [eleanor] := by
    have h2 : createBoatCSV "not a boat".toList = none :=
      createBoatCSV_few_tokens _ (by decide)
    have h3 : createBoatCSV [] = none := createBoatCSV_few_tokens _ (by decide)
    rw [List.cons_append, List.cons_append, List.nil_append, List.filterMap_cons,
      createBoatCSV_eleanor, List.filterMap_cons, h2, List.filterMap_cons, h3]
    rfl
  have h := loadBoats_loads ["Eleanor,28,slip,23,1200.50".toList, "not a boat".toList] []
    blankArray hl hlast
  rw [htext, hacc] at h
  refine ⟨hl, hlast, htext, ?_, ?_⟩
  · rw [h.1]; decide
  · rw [h.2.2.1]; rfl

theorem main_p_names (boats : Nat → Boat) (count : Nat) (name : List Char)
    (payment : Option ℚ) (k : Nat) :
    ((main_p boats count name payment).1 k).name = (boats k).name := by
  unfold main_p
  simp only
  split_ifs with h1
  · rfl
  · cases payment with
    | none => rfl
    | some p =>
      simp only
      split_ifs with h2
      · rfl
      · show (Function.update boats _ _ k).name = _
        by_cases hk : k = (findBoat boats count name).toNat
        · rw [hk, Function.update_same]
        · rw [Function.update_noteq hk]

theorem main_m_names (boats : Nat → Boat) (count : Nat) (k : Nat) :
    (main_m boats count k).name = (boats k).name := by
  unfold main_m
  rw [main_m_loop_apply]
  split_ifs <;> rfl

theorem sortedByName_of_names {a b : Nat → Boat} {count : Nat}
    (h : ∀ k, (a k).name = (b k).name) (hs : sortedByName b count) : sortedByName a count := by
  intro i j hij hj
  rw [h i, h j]
  exact hs i j hij hj

theorem main_a_sorted (boats : Nat → Boat) (count : Nat) (line : List Char)
    (hs : sortedByName boats count) :
    sortedByName (main_a boats count line).1 (main_a boats count line).2 := by
  unfold main_a
  split_ifs with h
  · exact hs
  · cases createBoatCSV line with
    | none => exact hs
    | some nb => exact insertBoat_sorted boats count nb hs

theorem runCommand_sorted (st : (Nat → Boat) × Nat) (c : Command)
    (hs : sortedByName st.1 st.2) :
    sortedByName (runCommand st c).1 (runCommand st c).2 := by
  cases c with
  | add line => exact main_a_sorted st.1 st.2 line hs
  | remove name => exact main_r_sorted st.1 st.2 name hs
  | payment name amount =>
    exact sortedByName_of_names (fun k => main_p_names st.1 st.2 name amount k) hs
  | month => exact sortedByName_of_names (fun k => main_m_names st.1 st.2 k) hs

theorem loadBoats_zedAnn :
    (loadBoats (some "Zed,10,land,B,0.00\nAnn,10,land,A,0.00\n".toList) blankArray).2 = 2 ∧
    registry (loadBoats (some "Zed,10,land,B,0.00\nAnn,10,land,A,0.00\n".toList) blankArray).1
      2 = [landBoat "Zed" 10 'B', landBoat "Ann" 10 'A'] := by
  have hl : ∀ l ∈ ["Zed,10,land,B,0.00".toList, "Ann,10,land,A,0.00".toList], isLine l := by
    intro l h
    simp only [List.mem_cons, List.mem_singleton, List.mem_nil_iff, or_false] at h
    rcases h with rfl | rfl <;> exact ⟨by decide, by decide⟩
  have hlast : isLine [] := ⟨by decide, by decide⟩
  have htext : "Zed,10,land,B,0.00\nAnn,10,land,A,0.00\n".toList =
      fileText ["Zed,10,land,B,0.00".toList, "Ann,10,land,A,0.00".toList] ++ [] := by decide
  have hacc : (["Zed,10,land,B,0.00".toList, "Ann,10,land,A,0.00".toList] ++
      [[]]).filterMap createBoatCSV = [landBoat "Zed" 10 'B', landBoat "Ann" 10 'A'] := by
    have h3 : createBoatCSV [] = none := createBoatCSV_few_tokens _ (by decide)
    rw [List.cons_append, List.cons_append, List.nil_append, List.filterMap_cons,
      createBoatCSV_zed, List.filterMap_cons, createBoatCSV_ann, List.filterMap_cons, h3]
    rfl
  have hloop : loadBoats (some "Zed,10,land,B,0.00\nAnn,10,land,A,0.00\n".toList) blankArray =
      storeRecords [landBoat "Zed" 10 'B', landBoat "Ann" 10 'A'] blankArray 0 := by
    rw [htext, ← hacc]
    exact loadBoats_loop_lines [] hlast _ hl _ blankArray 0 (le_refl _)
  rw [hloop]
  exact ⟨by decide, by decide⟩

/-- C14 (counterexample). `loadBoats` on the file with the lines `Zed,10,land,B,0.00` and
`Ann,10,land,A,0.00` returns count 2 with Zed at index 0 and Ann at index 1: the state
right after the load is not in case-insensitive non-descending order. -/
theorem loadBoats_unsorted_counterexample :
    (loadBoats (some "Zed,10,land,B,0.00\nAnn,10,land,A,0.00\n".toList) blankArray).2 = 2 ∧
    registry (loadBoats (some "Zed,10,land,B,0.00\nAnn,10,land,A,0.00\n".toList) blankArray).1
      2 = [landBoat "Zed" 10 'B', landBoat "Ann" 10 'A'] ∧
    ¬ sortedByName
      (loadBoats (some "Zed,10,land,B,0.00\nAnn,10,land,A,0.00\n".toList) blankArray).1
      (loadBoats (some "Zed,10,land,B,0.00\nAnn,10,land,A,0.00\n".toList) blankArray).2 := by
  obtain ⟨h1, h2⟩ := loadBoats_zedAnn
  refine ⟨h1, h2, fun hs => ?_⟩
  rw [h1] at hs
  have h01 := hs 0 1 (by decide) (by decide)
  have e0 := registry_getElem?
    (loadBoats (some "Zed,10,land,B,0.00\nAnn,10,land,A,0.00\n".toList) blankArray).1 2 0
  have e1 := registry_getElem?
    (loadBoats (some "Zed,10,land,B,0.00\nAnn,10,land,A,0.00\n".toList) blankArray).1 2 1
  rw [h2] at e0 e1
  simp only [List.getElem?_cons_zero, List.getElem?_cons_succ, Nat.lt_add_one, if_true,
    Nat.zero_lt_succ, Option.some.injEq] at e0 e1
  rw [← e0, ← e1] at h01
  revert h01
  decide

/-- C14 (amended). From a registry whose names are in case-insensitive non-descending
order, every sequence of add, remove, payment and monthly-charge commands leads to a
registry whose names are in case-insensitive non-descending order. -/
theorem runCommands_preserve_order (boats : Nat → Boat) (count : Nat)
    (hs : sortedByName boats count) (cs : List Command) :
    sortedByName (runCommands (boats, count) cs).1 (runCommands (boats, count) cs).2 := by
  induction cs generalizing boats count with
  | nil => exact hs
  | cons c cs ih =>
    simp only [runCommands]
    have hstep := runCommand_sorted (boats, count) c hs
    exact ih (runCommand (boats, count) c).1 (runCommand (boats, count) c).2 hstep

/-- Witness for C14 (amended): from the empty registry, adding Zed and Ann, charging a
month, paying for Zed and removing a boat that is not there keeps Ann before Zed. -/
theorem runCommands_preserve_order_witness :
    sortedByName blankArray 0 ∧
    sortedByName
      (runCommands (blankArray, 0)
        [Command.add "Zed,10,land,B,0.00".toList, Command.add "Ann,10,land,A,0.00".toList,
          Command.month, Command.payment "zed".toList (some 40),
          Command.remove "Bob".toList]).1
      (runCommands (blankArray, 0)
        [Command.add "Zed,10,land,B,0.00".toList, Command.add "Ann,10,land,A,0.00".toList,
          Command.month, Command.payment "zed".toList (some 40),
          Command.remove "Bob".toList]).2 :=
  ⟨fun _ _ _ h => absurd h (Nat.not_lt_zero _),
   runCommands_preserve_order blankArray 0 (fun _ _ _ h => absurd h (Nat.not_lt_zero _)) _⟩

theorem main_p_found (boats : Nat → Boat) (count : Nat) (name : List Char) (i : Nat)
    (p : ℚ) (hfind : findBoat boats count name = (i : Int)) :
    main_p boats count name (some p) =
      if p > (boats i).amount_owed then (boats, PaymentReport.too_much (boats i).amount_owed)
      else (Function.update boats i { boats i with amount_owed := (boats i).amount_owed - p },
          PaymentReport.nothing) := by
  have hne : ¬ ((i : Int) = -1) := by omega
  simp only [main_p, hfind, if_neg hne, Int.toNat_ofNat]

theorem monthlyRate_pos (t : LocationType) : 0 < monthlyRate t := by
  cases t <;> simp only [monthlyRate, SLIP_RATE, LAND_RATE, TRAILOR_RATE, STORAGE_RATE] <;>
    norm_num

theorem createBoatCSV_eel : createBoatCSV "Eel,-5,slip,1,100.00".toList = some eel := by
  rw [createBoatCSV_eq_tokens]
  have ht : commaTokens "Eel,-5,slip,1,100.00".toList =
      ["Eel".toList, "-5".toList, "slip".toList, "1".toList, "100.00".toList] := by decide
  have hk : locationKeyword "slip".toList = some LocationType.slip := by decide
  have h2 : atoi "-5".toList = -5 := by decide
  have h4 : locationValue LocationType.slip "1".toList = LocationInfo.slip_number 1 := by
    decide
  have h5 : atof "100.00".toList = 100 := by
    simp [atof, atof_unsigned, atof_exponent, decimalValue, digitValue, isdigit, isspace]
    norm_num
  rw [ht]
  simp only [hk, Option.map, boatOfTokens, h2, h4, h5]
  rfl

theorem mem_registry {boats : Nat → Boat} {count : Nat} {a : Boat} :
    a ∈ registry boats count ↔ ∃ i, i < count ∧ boats i = a := by
  simp [registry]

theorem registry_pairwise {boats : Nat → Boat} {count : Nat} {R : Boat → Boat → Prop}
    (h : ∀ i j, i < j → j < count → R (boats i) (boats j)) :
    (registry boats count).Pairwise R := by
  unfold registry
  rw [List.pairwise_map]
  refine (List.pairwise_lt_range count).imp_of_mem ?_
  intro i j _ hj hij
  exact h i j hij (List.mem_range.mp hj)

theorem registry_eq_pointwise {a b : Nat → Boat} {count : Nat}
    (h : registry a count = registry b count) (k : Nat) (hk : k < count) : a k = b k := by
  have h1 := registry_getElem? a count k
  have h2 := registry_getElem? b count k
  rw [h, h2, if_pos hk, if_pos hk] at h1
  exact (Option.some.inj h1).symm

theorem two_indices {P : Nat → Nat → Prop} (h : P 0 1) :
    ∀ i j, i < j → j < 2 → P i j := by
  intro i j hij hj
  have hj1 : j = 1 := by omega
  have hi0 : i = 0 := by omega
  subst hj1; subst hi0
  exact h

theorem boatLe_total (a b : Boat) : boatLe a b ∨ boatLe b a := by
  by_cases h : boatLe a b
  · exact Or.inl h
  · exact Or.inr (nameLe_total a.name b.name h)

theorem boatLe_trans (a b c : Boat) (h1 : boatLe a b) (h2 : boatLe b c) : boatLe a c :=
  nameLe_trans a.name b.name c.name h1 h2

theorem qsort_registry (boats : Nat → Boat) (count : Nat) :
    registry (qsort boats count) count = List.insertionSort boatLe (registry boats count) := by
  have hlen : (List.insertionSort boatLe (registry boats count)).length = count := by
    rw [List.length_insertionSort, registry_length]
  apply List.ext_getElem?
  intro k
  rw [registry_getElem?]
  by_cases hk : k < count
  · rw [if_pos hk]
    have hk' : k < (List.insertionSort boatLe (registry boats count)).length := by omega
    simp [qsort, List.get?_eq_getElem?, List.getElem?_eq_getElem hk']
  · rw [if_neg hk, List.getElem?_eq_none (by omega)]

theorem qsort_rest (boats : Nat → Boat) (count : Nat) (k : Nat) (hk : count ≤ k) :
    qsort boats count k = boats k := by
  have hlen : (List.insertionSort boatLe (registry boats count)).length = count := by
    rw [List.length_insertionSort, registry_length]
  simp [qsort, List.get?_eq_getElem?, List.getElem?_eq_none (by omega :
    (List.insertionSort boatLe (registry boats count)).length ≤ k)]

theorem registry_sorted_of_pairwise {boats : Nat → Boat} {count : Nat}
    (h : (registry boats count).Pairwise boatLe) :
    ∀ i j, i < j → j < count → compareBoats (boats i) (boats j) ≤ 0 := by
  intro i j hij hj
  rw [List.pairwise_iff_getElem] at h
  have hi' : i < (registry boats count).length := by rw [registry_length]; omega
  have hj' : j < (registry boats count).length := by rw [registry_length]; omega
  have := h i j hi' hj' hij
  have ei : (registry boats count)[i] = boats i := by simp [registry]
  have ej : (registry boats count)[j] = boats j := by simp [registry]
  rw [ei, ej] at this
  exact this

theorem qsort_meets_contract (boats : Nat → Boat) (count : Nat) :
    qsortContract boats count (qsort boats count) := by
  refine ⟨?_, ?_, qsort_rest boats count⟩
  · rw [qsort_registry]
    exact List.perm_insertionSort boatLe _
  · apply registry_sorted_of_pairwise
    rw [qsort_registry]
    exact @List.sorted_insertionSort Boat boatLe _ ⟨boatLe_total⟩ ⟨boatLe_trans⟩ _

theorem qsortContract_strict (boats : Nat → Boat) (count : Nat) (after : Nat → Boat)
    (h : qsortContract boats count after) (hstrict : strictlySortedByName boats count) :
    ∀ k, after k = boats k := by
  obtain ⟨hperm, hsorted, hrest⟩ := h
  intro k
  by_cases hk : count ≤ k
  · exact hrest k hk
  · have h1 : (registry after count).Pairwise (fun a b => compareBoats a b ≤ 0) :=
      registry_pairwise hsorted
    have h2 : (registry boats count).Pairwise (fun a b => compareBoats a b ≤ 0) :=
      registry_pairwise (fun i j hij hj => le_of_lt (hstrict i j hij hj))
    have hanti : ∀ a b, a ∈ registry after count → b ∈ registry boats count →
        compareBoats a b ≤ 0 → compareBoats b a ≤ 0 → a = b := by
      intro a b ha hb hab hba
      obtain ⟨i, hi, rfl⟩ := mem_registry.mp (hperm.mem_iff.mp ha)
      obtain ⟨j, hj, rfl⟩ := mem_registry.mp hb
      unfold compareBoats at hab hba
      rcases Nat.lt_trichotomy i j with hlt | heq | hgt
      · have := hstrict i j hlt hj
        rw [strcasecmp_swap (boats i).name (boats j).name] at hba
        omega
      · rw [heq]
      · have := hstrict j i hgt hi
        rw [strcasecmp_swap (boats j).name (boats i).name] at hab
        omega
    have heq := List.Perm.eq_of_sorted hanti h1 h2 hperm
    exact registry_eq_pointwise heq k (by omega)

/-- C16 (counterexample). The registry holds Zed and then Ann. After `printInventory` it
holds Ann and then Zed: the stored sequence has changed. This does not hang on how
`qsort` treats equal names: no array that the contract of `qsort` allows leaves the
sequence as it was. -/
theorem printInventory_reorders_counterexample :
    registry zedAnn 2 = [landBoat "Zed" 10 'B', landBoat "Ann" 10 'A'] ∧
    registry (printInventory zedAnn 2) 2 = [landBoat "Ann" 10 'A', landBoat "Zed" 10 'B'] ∧
    printInventory zedAnn 2 0 ≠ zedAnn 0 ∧
    ¬ ∃ after, qsortContract zedAnn 2 after ∧ registry after 2 = registry zedAnn 2 := by
  refine ⟨by decide, by decide, by decide, ?_⟩
  rintro ⟨after, ⟨-, hsorted, -⟩, heq⟩
  have h01 := hsorted 0 1 (by decide) (by decide)
  rw [registry_eq_pointwise heq 0 (by decide), registry_eq_pointwise heq 1 (by decide)] at h01
  revert h01
  decide

/-- C16 (amended). `printInventory` sorts the first `count` slots in place before it
prints: the stored sequence afterwards is a permutation of the sequence before, so every
record is kept unmodified and the count is the same, it is in case-insensitive
non-descending order, and the slots from `count` on are untouched. The records keep their
positions when the names were in strictly ascending case-insensitive order before. The
array after the call meets the contract of `qsort`, and with names in strictly ascending
order every array that meets this contract is the array before the call. -/
theorem printInventory_sorts (boats : Nat → Boat) (count : Nat) :
    (registry (printInventory boats count) count).Perm (registry boats count) ∧
    (∀ k, k < count → ∃ j, j < count ∧ printInventory boats count k = boats j) ∧
    sortedByName (printInventory boats count) count ∧
    (∀ k, count ≤ k → printInventory boats count k = boats k) ∧
    (strictlySortedByName boats count → ∀ k, printInventory boats count k = boats k) ∧
    qsortContract boats count (printInventory boats count) ∧
    (∀ after, qsortContract boats count after → strictlySortedByName boats count →
      ∀ k, after k = boats k) := by
  have hc : qsortContract boats count (printInventory boats count) :=
    qsort_meets_contract boats count
  obtain ⟨hperm, hsorted, hrest⟩ := hc
  refine ⟨hperm, fun k hk => ?_, hsorted, hrest, fun hstrict =>
    qsortContract_strict boats count _ ⟨hperm, hsorted, hrest⟩ hstrict,
    ⟨hperm, hsorted, hrest⟩, fun after h hstrict => qsortContract_strict boats count after h hstrict⟩
  have hmem : printInventory boats count k ∈ registry boats count :=
    hperm.mem_iff.mp (mem_registry.mpr ⟨k, hk, rfl⟩)
  obtain ⟨j, hj, hjk⟩ := mem_registry.mp hmem
  exact ⟨j, hj, hjk.symm⟩

/-- Example for C16 (amended): the registry with Zed and then Ann is sorted to Ann and
then Zed, and the registry with Ann and then Zed, whose names are in strictly ascending
order, is left as it is. -/
theorem printInventory_sorts_witness :
    registry (printInventory zedAnn 2) 2 = [landBoat "Ann" 10 'A', landBoat "Zed" 10 'B'] ∧
    sortedByName (printInventory zedAnn 2) 2 ∧
    strictlySortedByName annZed 2 ∧
    ∀ k, printInventory annZed 2 k = annZed k :=
  ⟨by decide, (printInventory_sorts zedAnn 2).2.2.1, two_indices (by decide),
   (printInventory_sorts annZed 2).2.2.2.2.1 (two_indices (by decide))⟩

end Fleet
